import Mathlib

/-!
Verification of the combat and character-state engine of the DnD-Assistant
repository (src/DungeonsAndDragons.py), through a shallow embedding in
Lean 4.  Python integers are modelled as Int, with Int.fdiv for the Python
floor division; Python lists as List; Python dicts as insertion-ordered
association lists; code that can raise returns Option or Except values.
The random collaborator (random.randint) is passed in explicitly as a
stream of die results.
-/

namespace DnD

/- ------------------------------------------------------------------ -/
/- Decimal numerals: Python str(int) and int(str).                     -/
/- ------------------------------------------------------------------ -/

/-- The decimal digit character for a value below ten (values of ten or
more, which never occur, map to the digit nine). -/
def digitChar (n : Nat) : Char :=
  match n with
  | 0 => '0' | 1 => '1' | 2 => '2' | 3 => '3' | 4 => '4'
  | 5 => '5' | 6 => '6' | 7 => '7' | 8 => '8' | _ => '9'

/-- Numeric value of a decimal digit character. -/
def charVal (c : Char) : Nat := c.toNat - 48

/-- Fuel-driven digit expansion; any fuel above the value itself is
enough, and the fuel only exists to keep the recursion structural. -/
def natDigitsAux (fuel n : Nat) : List Char :=
  match fuel with
  | 0 => []
  | f + 1 =>
    if n < 10 then [digitChar n]
    else natDigitsAux f (n / 10) ++ [digitChar (n % 10)]

/-- Decimal digit list (most significant digit first) of a natural
number, matching the Python str() rendering of a nonnegative int. -/
def natDigits (n : Nat) : List Char := natDigitsAux (n + 1) n

theorem natDigitsAux_congr :
    ∀ (f g n : Nat), n < f → n < g → natDigitsAux f n = natDigitsAux g n := by
  intro f
  induction f with
  | zero => intro g n h1 _; omega
  | succ f0 ih =>
    intro g n h1 h2
    cases g with
    | zero => omega
    | succ g0 =>
      unfold natDigitsAux
      by_cases hn : n < 10
      · rw [if_pos hn, if_pos hn]
      · rw [if_neg hn, if_neg hn]
        have hd : n / 10 < n := Nat.div_lt_self (by omega) (by omega)
        rw [ih g0 (n / 10) (by omega) (by omega)]

/-- The recursion equation of the Python digit rendering. -/
theorem natDigits_eq (n : Nat) :
    natDigits n =
      if n < 10 then [digitChar n]
      else natDigits (n / 10) ++ [digitChar (n % 10)] := by
  unfold natDigits
  rw [show natDigitsAux (n + 1) n =
    (if n < 10 then [digitChar n]
     else natDigitsAux n (n / 10) ++ [digitChar (n % 10)]) from rfl]
  by_cases hn : n < 10
  · rw [if_pos hn, if_pos hn]
  · rw [if_neg hn, if_neg hn]
    have hd : n / 10 < n := Nat.div_lt_self (by omega) (by omega)
    rw [natDigitsAux_congr n (n / 10 + 1) (n / 10) (by omega) (by omega)]

/-- Decimal character list of an Int, matching Python str(). -/
def intRepr (n : Int) : List Char :=
  if n < 0 then '-' :: natDigits (-n).toNat else natDigits n.toNat

/-- String form of natDigits. -/
def natStr (n : Nat) : String := ⟨natDigits n⟩

/-- String form of intRepr. -/
def intStr (n : Int) : String := ⟨intRepr n⟩

/-- ASCII model of Python str.lower(), over the character list so that
it evaluates by reduction. -/
def pyLower (s : String) : String := ⟨s.data.map Char.toLower⟩

/-- ASCII model of Python str.upper(). -/
def pyUpper (s : String) : String := ⟨s.data.map Char.toUpper⟩

/-- ASCII whitespace recognized by Python str.strip() and int(). -/
def pyWs (c : Char) : Bool :=
  c == ' ' || c == '\t' || c == '\n' || c == '\r' || c == '\x0b' || c == '\x0c'

/-- Strip ASCII whitespace from both ends of a character list. -/
def stripWs (l : List Char) : List Char :=
  ((l.dropWhile pyWs).reverse.dropWhile pyWs).reverse

/-- Digit-sequence tail of the CPython int() grammar: after a first digit
has been consumed into acc, accept further digits, with single
underscores allowed strictly between digits. -/
def goDigits (acc : Nat) : List Char → Option Nat
  | [] => some acc
  | c :: rest =>
    if c.isDigit then goDigits (acc * 10 + charVal c) rest
    else if c = '_' then
      match rest with
      | [] => none
      | d :: rest' =>
        if d.isDigit then goDigits (acc * 10 + charVal d) rest' else none
    else none

/-- Unsigned-digits part of the CPython int() grammar: one leading digit,
then goDigits. -/
def parseDigits : List Char → Option Nat
  | [] => none
  | c :: rest => if c.isDigit then goDigits (charVal c) rest else none

/-- Sign-and-digits stage of pyInt, applied to the stripped character
list split into its head and tail. -/
def pySigned (c : Char) (rest : List Char) : Option Int :=
  if c = '+' then
    match parseDigits rest with
    | some n => some ((n : Nat) : Int)
    | none => none
  else if c = '-' then
    match parseDigits rest with
    | some n => some (-((n : Nat) : Int))
    | none => none
  else
    match parseDigits (c :: rest) with
    | some n => some ((n : Nat) : Int)
    | none => none

/-- Model of CPython int() applied to an ASCII string: surrounding ASCII
whitespace, an optional sign, then decimal digits with single underscores
allowed between digits.  (CPython additionally accepts non-ASCII digit
and space characters; those inputs are outside the scope of this model.)
Returns none where Python raises ValueError. -/
def pyInt (l : List Char) : Option Int :=
  match stripWs l with
  | [] => none
  | c :: rest => pySigned c rest

/- ------------------------------------------------------------------ -/
/- roll_expression                                                     -/
/- ------------------------------------------------------------------ -/

/-- Backwards scan of roll_expression looking for the trailing signed
modifier: Python scans the index i from the end of e down to 0 for a plus
or minus sign that starts the string or is directly preceded by a digit
or the letter d.  findModCond is the test made at index i. -/
def findModCond (e : List Char) (i : Nat) : Prop :=
  (e.getD i ' ' = '+' ∨ e.getD i ' ' = '-') ∧
    (i = 0 ∨ (e.getD (i - 1) ' ').isDigit = true ∨ e.getD (i - 1) ' ' = 'd')

instance (e : List Char) (i : Nat) : Decidable (findModCond e i) := by
  unfold findModCond
  infer_instance

/-- One-past-the-inspected-index driver of the backwards modifier scan. -/
def findModIdxAux (e : List Char) : Nat → Option Nat
  | 0 => none
  | i + 1 => if findModCond e i then some i else findModIdxAux e i

/-- Index of the trailing signed-modifier split point of roll_expression,
when one exists. -/
def findModIdx (e : List Char) : Option Nat := findModIdxAux e e.length

/-- Split at the first letter d, mirroring the Python split with a
maxsplit of one.  Returns none when no d occurs in the list. -/
def splitD : List Char → Option (List Char × List Char)
  | [] => none
  | c :: rest =>
    if c = 'd' then some ([], rest)
    else (splitD rest).map (fun p => (c :: p.1, p.2))

/-- Python repr of a list of nonnegative ints, exactly as interpolated
into the detail f-string of roll_expression. -/
def rollsRepr (rolls : List Nat) : List Char :=
  '[' :: List.intercalate [',', ' '] (rolls.map natDigits) ++ [']']

/-- The modifier rendering of roll_expression detail strings: a plus sign
for nonnegative values, then the Python str() of the value (which carries
its own minus sign when negative). -/
def plusFmt (plus : Int) : List Char :=
  (if 0 ≤ plus then ['+'] else []) ++ intRepr plus

/-- Dice branch of roll_expression: the residual contained a d and has
been split at its first occurrence.  The count defaults to one when the
part before the d is empty. -/
def rollDice (nStr mStr : List Char) (plus : Int) (dice : Nat → Nat) :
    Except String (Int × String) :=
  match (if nStr = [] then some 1 else pyInt nStr), pyInt mStr with
  | some n, some m =>
    if n < 1 ∨ m < 1 ∨ n > 1000 ∨ m > 10000 then
      Except.error ("Dice counts/sizes out of allowed range")
    else
      Except.ok ((((List.range n.toNat).map dice).sum : Nat) + plus,
        String.mk (("rolls=").data ++ rollsRepr ((List.range n.toNat).map dice) ++
          (if plus ≠ 0 then ' ' :: plusFmt plus else [])))
  | _, _ => Except.error ("Invalid dice count/size")

/-- Constant branch of roll_expression: no d in the residual. -/
def rollConst (e : List Char) (plus : Int) : Except String (Int × String) :=
  match pyInt e with
  | some v =>
    if plus ≠ 0 then
      Except.ok (v + plus,
        String.mk (("const ").data ++ intRepr v ++ [' '] ++ plusFmt plus))
    else
      Except.ok (v + plus, String.mk (("const ").data ++ intRepr v))
  | none => Except.error ("Invalid numeric expression")

/-- Continuation of roll_expression after the trailing modifier has been
split off: e is the residual expression (already space-stripped and
lowercased) and plus the parsed modifier.  The dice argument is the
random collaborator: the i-th die rolled in this call shows dice i. -/
def rollCore (e : List Char) (plus : Int) (dice : Nat → Nat) :
    Except String (Int × String) :=
  if e = [] then
    Except.ok (plus, String.mk (("modifier only ").data ++ plusFmt plus))
  else
    match splitD e with
    | some (nStr, mStr) => rollDice nStr mStr plus dice
    | none => rollConst e plus

/-- Modifier-found branch of roll_expression: the trailing part from the
found sign index is parsed as the modifier, its failure raising. -/
def rollModSplit (e0 : List Char) (i : Nat) (dice : Nat → Nat) :
    Except String (Int × String) :=
  match pyInt (e0.drop i) with
  | none => Except.error ("Invalid modifier in expression")
  | some plus => rollCore (e0.take i) plus dice

/-- Shallow embedding of roll_expression.  The expression is checked
nonempty after stripping, spaces are removed and the string lowercased,
a trailing signed modifier is split off, and rollCore evaluates the
residual.  Except.error models a raised ValueError. -/
def rollExpression (expr : String) (dice : Nat → Nat) :
    Except String (Int × String) :=
  if (expr.data.dropWhile pyWs).reverse.dropWhile pyWs = [] then
    Except.error ("Empty expression")
  else
    match findModIdx ((expr.data.filter (fun c => c != ' ')).map Char.toLower) with
    | some i =>
      rollModSplit ((expr.data.filter (fun c => c != ' ')).map Char.toLower) i dice
    | none =>
      rollCore ((expr.data.filter (fun c => c != ' ')).map Char.toLower) 0 dice

/- ------------------------------------------------------------------ -/
/- Data model: Item, Spell, Character.                                 -/
/- ------------------------------------------------------------------ -/

/-- Exact value of Python math.ceil(a / 2) applied to an int a. -/
def ceilHalf (a : Int) : Int := Int.fdiv (a + 1) 2

/-- Python dict get with a default, over an insertion-ordered association
list without duplicate keys (the first binding wins). -/
def alistGetD {α : Type} (l : List (String × α)) (k : String) (d : α) : α :=
  match l.find? (fun p => p.1 == k) with
  | some p => p.2
  | none => d

/-- Inventory item.  The Python weight field is a float that the snapshot
round trip carries verbatim through JSON, so it is modelled here by an
integer-valued carrier; the free-form properties dict is modelled as
string pairs for the same reason. -/
structure Item where
  name : String
  description : String := ""
  quantity : Int := 1
  consumable : Bool := false
  weight : Int := 0
  properties : List (String × String) := []
deriving DecidableEq, Repr

/-- Three-flag spell component record (the Python V/S/M dict). -/
structure Components where
  V : Bool := true
  S : Bool := true
  M : Bool := false
deriving DecidableEq, Repr

/-- Immutable spell value record. -/
structure Spell where
  name : String
  level : Int
  school : String := ""
  cast_time : String := "1 action"
  range : String := "Self"
  duration : String := "Instantaneous"
  components : Components := {}
  concentration : Bool := false
  description : String := ""
  damage_expr : Option String := none
  damage_type : Option String := none
  save : Option String := none
  save_half : Bool := false
deriving DecidableEq, Repr

/-- A Python value holding the spell data inside a concentration record:
either the live Spell dataclass object (as stored by start_concentration)
or the plain dict of its fields (as produced by Character.from_dict,
which never rebuilds the dataclass).  Both forms carry the same field
data but are distinct Python values, and the dataclass equality used by
campaign comparison distinguishes them. -/
inductive SpellVal where
  | obj (s : Spell)
  | dict (s : Spell)
deriving DecidableEq, Repr

/-- The spell payload of a SpellVal. -/
def SpellVal.flatten : SpellVal → Spell
  | .obj s => s
  | .dict s => s

/-- Whether a SpellVal is the live dataclass object. -/
def SpellVal.isObj : SpellVal → Bool
  | .obj _ => true
  | .dict _ => false

/-- Active-concentration record: the dict built by start_concentration. -/
structure Concentration where
  spell : SpellVal
  save_dc : Int
  started_at_round : Int
deriving DecidableEq, Repr

/-- Spell-slot record: the Python dict with current and max keys. -/
structure Slot where
  current : Int
  max : Int
deriving DecidableEq, Repr

/-- The Character dataclass.  Dicts keep insertion order; the turn engine
and serialization never rely on anything beyond that order. -/
structure Character where
  name : String
  player_name : Option String := none
  char_id : String
  level : Int := 1
  race : String := ""
  char_class : String := ""
  max_hp : Int := 8
  current_hp : Int := 8
  temp_hp : Int := 0
  hit_die : Int := 8
  hit_die_total : Int := 1
  armor_class : Int := 10
  speed : Int := 30
  abilities : List (String × Int) :=
    [("STR", 10), ("DEX", 10), ("CON", 10), ("INT", 10), ("WIS", 10), ("CHA", 10)]
  saves_proficiency : List (String × Bool) :=
    [("STR", false), ("DEX", false), ("CON", false), ("INT", false),
     ("WIS", false), ("CHA", false)]
  skill_proficiency : List (String × Bool) := []
  inspiration : Bool := false
  conditions : List (String × Int) := []
  inventory : List Item := []
  spells : List Spell := []
  spell_slots : List (Int × Slot) := []
  concentration : Option Concentration := none
  xp : Int := 0
deriving DecidableEq, Repr

/-- Module-level ability_mod: floor division toward negative infinity,
as Python // computes it. -/
def ability_mod (score : Int) : Int := Int.fdiv (score - 10) 2

/-- Module-level proficiency_bonus. -/
def proficiency_bonus (level : Int) : Int := 2 + Int.fdiv (max 0 (level - 1)) 4

/-- Character.ability_mod: the score defaults to 10 when the (uppercased)
ability key is absent. -/
def Character.abilityMod (c : Character) (ability : String) : Int :=
  ability_mod (alistGetD c.abilities (pyUpper ability) 10)

/-- Character.prof_bonus. -/
def Character.profBonus (c : Character) : Int := proficiency_bonus c.level

/-- Character.saving_throw_modifier: ability modifier plus the
proficiency bonus when that save is flagged proficient. -/
def Character.savingThrowModifier (c : Character) (ability : String) : Int :=
  c.abilityMod ability +
    (if alistGetD c.saves_proficiency (pyUpper ability) false then c.profBonus else 0)

/-- The result dict of Character.apply_damage. -/
structure DamageResult where
  current_hp : Int
  temp_hp : Int
  concentration_broken : Bool
deriving DecidableEq, Repr

/-- Shallow embedding of Character.apply_damage: temporary HP absorbs
first (only touched when it is positive), the remainder reduces current
HP floored at zero, and an active concentration ends when a supplied
constitution-save total is below max(10, ceil(amount / 2)) computed from
the full pre-absorption amount.  Returns the mutated character and the
result dict. -/
def Character.apply_damage (c : Character) (amount : Int)
    (con_save_roll : Option Int) : Character × DamageResult :=
  let used : Int := if c.temp_hp > 0 then min c.temp_hp amount else 0
  let temp' := c.temp_hp - used
  let remaining := amount - used
  let current' := max 0 (c.current_hp - remaining)
  let broken : Bool :=
    match c.concentration, con_save_roll with
    | some _, some r => decide (r < max 10 (ceilHalf amount))
    | _, _ => false
  let conc' := if broken then none else c.concentration
  ({ c with current_hp := current', temp_hp := temp', concentration := conc' },
   { current_hp := current', temp_hp := temp', concentration_broken := broken })

/-- Character.heal: current HP rises, capped at max HP. -/
def Character.heal (c : Character) (amount : Int) : Character :=
  { c with current_hp := min c.max_hp (c.current_hp + amount) }

/-- One condition entry after a tick: positive counters decrement and
disappear on reaching zero; indefinite (nonpositive) counters persist. -/
def tickCond : String × Int → Option (String × Int)
  | (k, v) =>
    if v > 0 then (if v - 1 ≤ 0 then none else some (k, v - 1)) else some (k, v)

/-- Character.tick_conditions. -/
def Character.tick_conditions (c : Character) : Character :=
  { c with conditions := c.conditions.filterMap tickCond }

/-- Character.use_spell_slot: none models the Python False return (no
mutation happens in that case); some gives the mutated character. -/
def Character.use_spell_slot (c : Character) (level : Int) : Option Character :=
  match c.spell_slots.find? (fun p => p.1 == level) with
  | none => none
  | some (_, slot) =>
    if slot.current ≤ 0 then none
    else some { c with
      spell_slots := c.spell_slots.map
        (fun p => if p.1 == level then (p.1, { p.2 with current := p.2.current - 1 }) else p) }

/-- The XP_LEVELS threshold table. -/
def XP_LEVELS : List Int :=
  [0, 300, 900, 2700, 6500, 14000, 23000, 34000, 48000, 64000,
   85000, 100000, 120000, 140000, 165000, 195000, 225000, 265000, 305000, 355000]

/-- Threshold read XP_LEVELS[l - 1] of try_level_up for a candidate level
l of at least one. -/
def xpThreshold (l : Int) : Int := XP_LEVELS.getD (l - 1).toNat 0

/-- Python range(a, b) as a list of Ints. -/
def pyRange (a b : Int) : List Int :=
  List.map (fun i : Nat => a + (i : Int)) (List.range (b - a).toNat)

/-- The ascending scan of try_level_up over candidate levels: the scan
stops at the first unmet threshold, and acc holds the best level so far. -/
def levelScan (xp : Int) : List Int → Int → Int
  | [], acc => acc
  | l :: ls, acc => if xpThreshold l ≤ xp then levelScan xp ls l else acc

/-- Character.try_level_up.  Candidate levels run from level + 1 to 20;
on a level gain, max HP grows by (ceil(hit_die / 2) + 1) per level. -/
def Character.try_level_up (c : Character) : Bool × Character :=
  let new_level := levelScan c.xp (pyRange (c.level + 1) 21) c.level
  if c.level < new_level then
    (true, { c with
             level := new_level,
             max_hp := c.max_hp + (ceilHalf c.hit_die + 1) * (new_level - c.level) })
  else (false, c)

/- ------------------------------------------------------------------ -/
/- Combat encounter.                                                   -/
/- ------------------------------------------------------------------ -/

/-- Combat-only wrapper around a Character. -/
structure Combatant where
  character : Character
  initiative : Option Int := none
  alive : Bool := true
  is_npc : Bool := false
  token_id : Option String := none
deriving DecidableEq, Repr

/-- Placeholder combatant used as the unreachable default of bounded
list reads. -/
def dummyCombatant : Combatant := { character := { name := "", char_id := "" } }

/-- CombatEncounter state.  The Python turn_index is an int that stays
nonnegative in every state the engine itself produces (previous_turn
uses the Python modulo, which is nonnegative), so it is modelled as Nat. -/
structure CombatEncounter where
  name : String := "Encounter"
  combatants : List Combatant := []
  round : Int := 0
  turn_index : Nat := 0
deriving DecidableEq, Repr

/-- CombatEncounter.add_combatant. -/
def CombatEncounter.add_combatant (e : CombatEncounter) (c : Combatant) : CombatEncounter :=
  { e with combatants := e.combatants ++ [c] }

/-- CombatEncounter.remove_combatant: drops every combatant whose
character id matches. -/
def CombatEncounter.remove_combatant (e : CombatEncounter) (cid : String) : CombatEncounter :=
  { e with combatants := e.combatants.filter (fun c => c.character.char_id != cid) }

/-- One ticked combatant (the character conditions tick; combat state is
untouched). -/
def tickCombatant (c : Combatant) : Combatant :=
  { c with character := c.character.tick_conditions }

/-- CombatEncounter.next_turn: none models the RuntimeError on an empty
roster.  Advances the cursor modulo the roster size; on a wrap to zero
the round increments and every combatant's conditions tick.  Returns the
new state and the new current combatant (the new cursor is in bounds, so
the current_combatant call at the end never repairs anything and is
inlined here as the direct read). -/
def CombatEncounter.next_turn (e : CombatEncounter) : Option (CombatEncounter × Combatant) :=
  if e.combatants = [] then none
  else if (e.turn_index + 1) % e.combatants.length = 0 then
    some ({ e with
        turn_index := (e.turn_index + 1) % e.combatants.length,
        round := e.round + 1,
        combatants := e.combatants.map tickCombatant },
      (e.combatants.map tickCombatant).getD
        ((e.turn_index + 1) % e.combatants.length) dummyCombatant)
  else
    some ({ e with turn_index := (e.turn_index + 1) % e.combatants.length },
      e.combatants.getD ((e.turn_index + 1) % e.combatants.length) dummyCombatant)

/-- CombatEncounter.previous_turn: steps the cursor backwards with the
Python modulo (always nonnegative; adding the length minus one equals
the Python (i - 1) mod n on nonnegative cursors); no round or condition
side effects. -/
def CombatEncounter.previous_turn (e : CombatEncounter) : Option (CombatEncounter × Combatant) :=
  if e.combatants = [] then none
  else
    some ({ e with turn_index := (e.turn_index + (e.combatants.length - 1)) % e.combatants.length },
      e.combatants.getD ((e.turn_index + (e.combatants.length - 1)) % e.combatants.length)
        dummyCombatant)

/-- CombatEncounter.current_combatant: none models the RuntimeError on an
empty roster; an out-of-bounds cursor is reset to zero (a mutation, hence
the returned state). -/
def CombatEncounter.current_combatant (e : CombatEncounter) :
    Option (CombatEncounter × Combatant) :=
  if e.combatants = [] then none
  else if e.turn_index < e.combatants.length then
    some (e, e.combatants.getD e.turn_index dummyCombatant)
  else
    some ({ e with turn_index := 0 }, e.combatants.getD 0 dummyCombatant)

/-- First combatant carrying the given character id (the object that the
Python next(...) generator expression finds). -/
def findCombatant (l : List Combatant) (cid : String) : Option Combatant :=
  l.find? (fun c => c.character.char_id == cid)

/-- In-place mutation of the combatant that findCombatant returns: the
first match is rewritten, everything else kept. -/
def updateCombatant (l : List Combatant) (cid : String) (f : Combatant → Combatant) :
    List Combatant :=
  match l with
  | [] => []
  | c :: rest =>
    if c.character.char_id == cid then f c :: rest
    else c :: updateCombatant rest cid f

/-- The result dict of perform_attack; the after/defender_alive keys are
only present on a hit. -/
structure AttackResult where
  hit : Bool
  applied_damage : Int
  defender_before_hp : Int
  after : Option DamageResult := none
  defender_alive : Option Bool := none
deriving DecidableEq, Repr

/-- The hit branch of perform_attack: damage doubles on a crit, goes
through Character.apply_damage with no save roll, and the defender's
alive flag clears when the resulting HP is nonpositive. -/
def performAttackHit (e : CombatEncounter) (defender_id : String) (defender : Combatant)
    (damage : Int) (crit : Bool) : AttackResult × CombatEncounter :=
  ({ hit := true,
     applied_damage := damage * (if crit then 2 else 1),
     defender_before_hp := defender.character.current_hp,
     after := some (defender.character.apply_damage (damage * (if crit then 2 else 1)) none).2,
     defender_alive := some (decide (¬ (defender.character.apply_damage
       (damage * (if crit then 2 else 1)) none).1.current_hp ≤ 0)) },
   { e with
     combatants := updateCombatant e.combatants defender_id
       (fun c => { c with
         character := (defender.character.apply_damage
           (damage * (if crit then 2 else 1)) none).1,
         alive := if (defender.character.apply_damage
             (damage * (if crit then 2 else 1)) none).1.current_hp ≤ 0 then false
           else c.alive }) })

/-- CombatEncounter.perform_attack.  Except.error models the ValueError
when either id is absent.  A hit happens exactly when the attack roll
total reaches the defender's armor class; a miss mutates nothing. -/
def CombatEncounter.perform_attack (e : CombatEncounter) (attacker_id defender_id : String)
    (attack_roll_total damage : Int) (crit : Bool) :
    Except String (AttackResult × CombatEncounter) :=
  match findCombatant e.combatants attacker_id, findCombatant e.combatants defender_id with
  | some _, some defender =>
    if attack_roll_total ≥ defender.character.armor_class then
      Except.ok (performAttackHit e defender_id defender damage crit)
    else
      Except.ok ({ hit := false, applied_damage := 0,
                   defender_before_hp := defender.character.current_hp }, e)
  | _, _ => Except.error ("Attacker or defender not in encounter")

/- ------------------------------------------------------------------ -/
/- cast_spell                                                          -/
/- ------------------------------------------------------------------ -/

/-- Spell lookup in the caster's known list: the first exact
case-insensitive name match. -/
def findKnownSpell (spells : List Spell) (spell_name : String) : Option Spell :=
  spells.find? (fun s => pyLower s.name == pyLower spell_name)

/-- Spell resolution of cast_spell: the caster's own list first, then the
external library/API collaborator (the global SPELL_LIBRARY plus remote
lookup, passed here as the function lib). -/
def resolveSpell (caster : Combatant) (lib : String → Option Spell)
    (spell_name : String) : Option Spell :=
  match findKnownSpell caster.character.spells spell_name with
  | some sp => some sp
  | none => lib spell_name

/-- Python truthiness of the optional save field (an empty string is
falsy, exactly as None is). -/
def Spell.hasSave (sp : Spell) : Bool :=
  match sp.save with
  | none => false
  | some s => s != ""

/-- Python truthiness of the optional damage expression. -/
def Spell.hasDamage (sp : Spell) : Bool :=
  match sp.damage_expr with
  | none => false
  | some e => e != ""

/-- The slot level consumed for a leveled spell:
slot_level if slot_level and slot_level >= sp.level else sp.level
(a requested level of zero is falsy and ignored). -/
def chosenSlotLevel (spLevel : Int) (slot_level : Option Int) : Int :=
  match slot_level with
  | some l => if l ≠ 0 ∧ l ≥ spLevel then l else spLevel
  | none => spLevel

/-- Per-target entry of the cast_spell results dict. -/
inductive TargetOutcome where
  | err (msg : String)
  | res (target_name : String) (save_required : Bool) (save_roll_total : Option Int)
        (save_succeeded : Option Bool) (damage_roll : String) (damage_applied : Int)
        (after : DamageResult)
deriving DecidableEq, Repr

/-- The cast_spell return value: either the slot-unavailable error dict
or the per-target results keyed by target id in processing order. -/
inductive CastResult where
  | error (msg : String)
  | success (spell : String) (caster : String) (targets : List (String × TargetOutcome))
deriving DecidableEq, Repr

/-- Randomness consumed for one present target of a spell cast: the d20
save roll (used only when a save is required) and the damage-die stream
handed to roll_expression. -/
structure TargetRng where
  d20 : Int
  dice : Nat → Nat

/-- The roll of _roll_damage_expr: a falsy expression deals no damage,
anything else goes through roll_expression (whose ValueError
propagates). -/
def rollDamageExpr (expr : Option String) (dice : Nat → Nat) :
    Except String (Int × String) :=
  match expr with
  | none => Except.ok (0, "no damage")
  | some e => if e = "" then Except.ok (0, "no damage") else rollExpression e dice

/-- The per-target loop of cast_spell, threading the roster state and the
per-target randomness.  Absent targets record an error entry and consume
no randomness; a ValueError escaping roll_expression aborts the cast. -/
def castLoop (sp : Spell) (dc : Int) :
    List String → List TargetRng → List Combatant →
    Except String (List (String × TargetOutcome) × List Combatant)
  | [], _, combs => Except.ok ([], combs)
  | tid :: tids, rngs, combs =>
    match findCombatant combs tid with
    | none =>
      match castLoop sp dc tids rngs combs with
      | Except.error m => Except.error m
      | Except.ok (entries, combs') =>
        Except.ok ((tid, TargetOutcome.err ("target not in encounter")) :: entries, combs')
    | some tgt =>
      let rng := rngs.headD ⟨10, fun _ => 1⟩
      let rngs' := rngs.tail
      let saveInfo : Option (Int × Bool) :=
        if sp.hasSave then
          match sp.save with
          | some sv => some (rng.d20 + tgt.character.savingThrowModifier sv,
                             decide (rng.d20 + tgt.character.savingThrowModifier sv ≥ dc))
          | none => none
        else none
      match rollDamageExpr sp.damage_expr rng.dice with
      | Except.error m => Except.error m
      | Except.ok (dtotal, ddetail) =>
        let save_roll_val : Option Int := saveInfo.map (fun p => p.1)
        let save_succeeded : Option Bool := saveInfo.map (fun p => p.2)
        let damage_done : Int :=
          if sp.hasSave ∧ sp.save_half ∧ save_succeeded = some true then
            max 0 (Int.fdiv dtotal 2)
          else
            if sp.hasDamage ∧
               (sp.hasSave = false ∨ save_succeeded ≠ some true ∨ sp.save_half = false) then
              dtotal
            else 0
        let r := tgt.character.apply_damage damage_done save_roll_val
        let combs' := updateCombatant combs tid (fun c =>
          { c with
            character := r.1,
            alive := if r.1.current_hp ≤ 0 then false else c.alive })
        let entry := TargetOutcome.res tgt.character.name sp.hasSave save_roll_val
          save_succeeded ddetail damage_done r.2
        match castLoop sp dc tids rngs' combs' with
        | Except.error m => Except.error m
        | Except.ok (entries, combs'') => Except.ok ((tid, entry) :: entries, combs'')

/-- The per-target stage of cast_spell, run after any slot has been
consumed: computes the save DC from the caster and folds the target
loop over the roster. -/
def castTargets (e : CombatEncounter) (caster : Combatant) (sp : Spell)
    (target_ids : List String) (caster_ability : String) (rngs : List TargetRng) :
    Except String (CastResult × CombatEncounter) :=
  match castLoop sp
      (8 + caster.character.profBonus + caster.character.abilityMod caster_ability)
      target_ids rngs e.combatants with
  | Except.error m => Except.error m
  | Except.ok (entries, combs') =>
    Except.ok (CastResult.success sp.name caster.character.name entries,
               { e with combatants := combs' })

/-- The slot-consumption stage of cast_spell: cantrips skip it; a
leveled spell consumes the chosen slot or returns the error dict with an
unchanged encounter. -/
def castWithSpell (e : CombatEncounter) (caster_id : String) (caster : Combatant)
    (sp : Spell) (slot_level : Option Int) (target_ids : List String)
    (caster_ability : String) (rngs : List TargetRng) :
    Except String (CastResult × CombatEncounter) :=
  if sp.level > 0 then
    match caster.character.use_spell_slot (chosenSlotLevel sp.level slot_level) with
    | none =>
      Except.ok (CastResult.error
        (String.mk (("No spell slot level ").data ++
          intRepr (chosenSlotLevel sp.level slot_level) ++ (" available").data)), e)
    | some ch' =>
      castTargets { e with
          combatants :=
            updateCombatant e.combatants caster_id (fun c => { c with character := ch' }) }
        caster sp target_ids caster_ability rngs
  else castTargets e caster sp target_ids caster_ability rngs

/-- CombatEncounter.cast_spell.  Except.error models the ValueError for a
missing caster or unresolvable spell; the slot-unavailable case is an
ordinary return carrying CastResult.error and an unchanged state.  The
lib argument stands for the external spell library/API collaborator and
rngs for the random collaborator. -/
def CombatEncounter.cast_spell (e : CombatEncounter) (caster_id spell_name : String)
    (slot_level : Option Int) (target_ids : List String) (caster_ability : String)
    (lib : String → Option Spell) (rngs : List TargetRng) :
    Except String (CastResult × CombatEncounter) :=
  match findCombatant e.combatants caster_id with
  | none => Except.error ("Caster not in encounter")
  | some caster =>
    match resolveSpell caster lib spell_name with
    | none => Except.error ("Spell not found for caster or API/library")
    | some sp =>
      castWithSpell e caster_id caster sp slot_level target_ids caster_ability rngs

/- ------------------------------------------------------------------ -/
/- Campaign snapshot serialization.                                    -/
/- ------------------------------------------------------------------ -/

/-- Applicative map over a list with a fallible function, in order; the
result is none when any element fails (the Python comprehension would
raise there). -/
def optMap {α β : Type} (f : α → Option β) : List α → Option (List β)
  | [] => some []
  | x :: xs =>
    match f x, optMap f xs with
    | some y, some ys => some (y :: ys)
    | _, _ => none

/-- The concentration record as it appears in the snapshot: asdict has
flattened the Spell dataclass into its field record. -/
structure ConcentrationRecord where
  spell : Spell
  save_dc : Int
  started_at_round : Int
deriving DecidableEq, Repr

/-- The serialized CharacterRecord of the snapshot file.  Every field of
the dataclass appears verbatim; the only JSON-induced change is that the
integer spell-slot level keys have become strings. -/
structure CharacterRecord where
  name : String
  player_name : Option String
  char_id : String
  level : Int
  race : String
  char_class : String
  max_hp : Int
  current_hp : Int
  temp_hp : Int
  hit_die : Int
  hit_die_total : Int
  armor_class : Int
  speed : Int
  abilities : List (String × Int)
  saves_proficiency : List (String × Bool)
  skill_proficiency : List (String × Bool)
  inspiration : Bool
  conditions : List (String × Int)
  inventory : List Item
  spells : List Spell
  spell_slots : List (String × Slot)
  concentration : Option ConcentrationRecord
  xp : Int
deriving DecidableEq, Repr

/-- Character.to_dict composed with the JSON dump: asdict keeps every
field, json.dump renders the int slot keys with str(). -/
def Character.to_dict (c : Character) : CharacterRecord :=
  { name := c.name, player_name := c.player_name, char_id := c.char_id,
    level := c.level, race := c.race, char_class := c.char_class,
    max_hp := c.max_hp, current_hp := c.current_hp, temp_hp := c.temp_hp,
    hit_die := c.hit_die, hit_die_total := c.hit_die_total,
    armor_class := c.armor_class, speed := c.speed, abilities := c.abilities,
    saves_proficiency := c.saves_proficiency,
    skill_proficiency := c.skill_proficiency, inspiration := c.inspiration,
    conditions := c.conditions, inventory := c.inventory, spells := c.spells,
    spell_slots := c.spell_slots.map (fun p => (intStr p.1, p.2)),
    concentration := c.concentration.map
      (fun cc => ⟨cc.spell.flatten, cc.save_dc, cc.started_at_round⟩),
    xp := c.xp }

/-- The Character that from_dict rebuilds once the slot keys have been
parsed back to the integer list given as the second argument.  The
concentration value stays the plain dict it is in the file: the code
never rebuilds the Spell dataclass. -/
def Character.fromFields (r : CharacterRecord) (slots : List (Int × Slot)) : Character :=
  { name := r.name, player_name := r.player_name, char_id := r.char_id,
    level := r.level, race := r.race, char_class := r.char_class,
    max_hp := r.max_hp, current_hp := r.current_hp, temp_hp := r.temp_hp,
    hit_die := r.hit_die, hit_die_total := r.hit_die_total,
    armor_class := r.armor_class, speed := r.speed, abilities := r.abilities,
    saves_proficiency := r.saves_proficiency,
    skill_proficiency := r.skill_proficiency, inspiration := r.inspiration,
    conditions := r.conditions, inventory := r.inventory, spells := r.spells,
    spell_slots := slots,
    concentration := r.concentration.map
      (fun cc => ⟨SpellVal.dict cc.spell, cc.save_dc, cc.started_at_round⟩),
    xp := r.xp }

/-- Character.from_dict: slot keys go through int(k) (none models the
raised ValueError on an unparseable key). -/
def Character.from_dict (r : CharacterRecord) : Option Character :=
  match optMap (fun p : String × Slot =>
    (pyInt p.1.data).map (fun k => (k, p.2))) r.spell_slots with
  | none => none
  | some slots => some (Character.fromFields r slots)

/-- Serialized combatant record. -/
structure CombatantRecord where
  character : CharacterRecord
  initiative : Option Int
  alive : Bool
  is_npc : Bool
  token_id : Option String
deriving DecidableEq, Repr

/-- Combatant.to_dict. -/
def Combatant.to_dict (c : Combatant) : CombatantRecord :=
  ⟨c.character.to_dict, c.initiative, c.alive, c.is_npc, c.token_id⟩

/-- Combatant.from_dict. -/
def Combatant.from_dict (r : CombatantRecord) : Option Combatant :=
  match Character.from_dict r.character with
  | none => none
  | some ch => some ⟨ch, r.initiative, r.alive, r.is_npc, r.token_id⟩

/-- Serialized encounter record. -/
structure EncounterRecord where
  name : String
  round : Int
  turn_index : Nat
  combatants : List CombatantRecord
deriving DecidableEq, Repr

/-- CombatEncounter.to_dict. -/
def CombatEncounter.to_dict (e : CombatEncounter) : EncounterRecord :=
  ⟨e.name, e.round, e.turn_index, e.combatants.map Combatant.to_dict⟩

/-- CombatEncounter.from_dict. -/
def CombatEncounter.from_dict (r : EncounterRecord) : Option CombatEncounter :=
  match optMap Combatant.from_dict r.combatants with
  | none => none
  | some cs => some ⟨r.name, cs, r.round, r.turn_index⟩

/-- The Game/Campaign aggregate.  The character and encounter dicts are
insertion-ordered association lists keyed by id. -/
structure Game where
  name : String
  characters : List (String × Character)
  encounters : List (String × CombatEncounter)
  party : List String
deriving DecidableEq, Repr

/-- The campaign snapshot file contents. -/
structure GameRecord where
  name : String
  characters : List (String × CharacterRecord)
  encounters : List (String × EncounterRecord)
  party : List String
deriving DecidableEq, Repr

/-- Game.save: the snapshot structure handed to json.dump. -/
def Game.save (g : Game) : GameRecord :=
  ⟨g.name, g.characters.map (fun p => (p.1, p.2.to_dict)),
   g.encounters.map (fun p => (p.1, p.2.to_dict)), g.party⟩

/-- Second stage of Game.load: rebuild the encounter dict once the
character dict cs has been rebuilt. -/
def Game.loadEnc (r : GameRecord) (cs : List (String × Character)) : Option Game :=
  match optMap (fun p : String × EncounterRecord =>
    (CombatEncounter.from_dict p.2).map (fun e => (p.1, e))) r.encounters with
  | none => none
  | some es => some ⟨r.name, cs, es, r.party⟩

/-- Game.load: rebuilds the campaign from a parsed snapshot. -/
def Game.load (r : GameRecord) : Option Game :=
  match optMap (fun p : String × CharacterRecord =>
    (Character.from_dict p.2).map (fun c => (p.1, c))) r.characters with
  | none => none
  | some cs => Game.loadEnc r cs

/- ------------------------------------------------------------------ -/
/- Lemmas: decimal numerals.                                           -/
/- ------------------------------------------------------------------ -/

theorem digitChar_isDigit {n : Nat} (h : n < 10) : (digitChar n).isDigit = true := by
  interval_cases n <;> decide

theorem charVal_digitChar {n : Nat} (h : n < 10) : charVal (digitChar n) = n := by
  interval_cases n <;> decide

theorem natDigits_ne_nil (n : Nat) : natDigits n ≠ [] := by
  rw [natDigits_eq]
  split
  · simp
  · simp

theorem natDigits_all_digit (n : Nat) : ∀ c ∈ natDigits n, c.isDigit = true := by
  induction n using Nat.strong_induction_on with
  | _ n ih =>
    rw [natDigits_eq]
    split
    · next h =>
      intro c hc
      simp only [List.mem_singleton] at hc
      exact hc ▸ digitChar_isDigit h
    · next h =>
      intro c hc
      rcases List.mem_append.mp hc with h1 | h2
      · exact ih (n / 10) (Nat.div_lt_self (by omega) (by omega)) c h1
      · simp only [List.mem_singleton] at h2
        exact h2 ▸ digitChar_isDigit (Nat.mod_lt _ (by omega))

/-- Left fold value of a digit string, matching what goDigits
accumulates. -/
def digitsVal (acc : Nat) (l : List Char) : Nat :=
  l.foldl (fun a c => a * 10 + charVal c) acc

theorem digitsVal_append (acc : Nat) (a b : List Char) :
    digitsVal acc (a ++ b) = digitsVal (digitsVal acc a) b := by
  simp [digitsVal, List.foldl_append]

theorem digitsVal_natDigits (acc n : Nat) :
    digitsVal acc (natDigits n) = acc * 10 ^ (natDigits n).length + n := by
  induction n using Nat.strong_induction_on generalizing acc with
  | _ n ih =>
    rw [natDigits_eq]
    split
    · next h =>
      simp [digitsVal, charVal_digitChar h]
    · next h =>
      rw [digitsVal_append]
      have hd : n / 10 < n := Nat.div_lt_self (by omega) (by omega)
      rw [ih (n / 10) hd acc]
      simp only [digitsVal, List.foldl_cons, List.foldl_nil, List.length_append,
        List.length_singleton]
      rw [charVal_digitChar (Nat.mod_lt _ (by omega))]
      rw [pow_succ]
      have := Nat.div_add_mod n 10
      ring_nf
      omega

theorem goDigits_digits (acc : Nat) (l : List Char) (h : ∀ c ∈ l, c.isDigit = true) :
    goDigits acc l = some (digitsVal acc l) := by
  induction l generalizing acc with
  | nil => rw [goDigits.eq_def]; simp [digitsVal]
  | cons c rest ih =>
    have hc : c.isDigit = true := h c (by simp)
    rw [goDigits.eq_def]
    simp only [hc, if_true, digitsVal, List.foldl_cons]
    simpa [digitsVal] using ih (acc * 10 + charVal c) (fun x hx => h x (by simp [hx]))

theorem parseDigits_digits (l : List Char) (hne : l ≠ [])
    (h : ∀ c ∈ l, c.isDigit = true) :
    parseDigits l = some (digitsVal 0 l) := by
  cases l with
  | nil => exact absurd rfl hne
  | cons c rest =>
    have hc : c.isDigit = true := h c (by simp)
    simp only [parseDigits, hc, if_pos, digitsVal, List.foldl_cons, Nat.zero_mul,
      Nat.zero_add]
    exact goDigits_digits _ rest (fun x hx => h x (by simp [hx]))

theorem parseDigits_natDigits (n : Nat) : parseDigits (natDigits n) = some n := by
  rw [parseDigits_digits _ (natDigits_ne_nil n) (natDigits_all_digit n),
    digitsVal_natDigits]
  simp

/- Character-class facts about decimal digits. -/

theorem isDigit_toNat {c : Char} (h : c.isDigit = true) : 48 ≤ c.toNat ∧ c.toNat ≤ 57 := by
  simp only [Char.isDigit, Bool.and_eq_true, decide_eq_true_eq, ge_iff_le] at h
  exact ⟨UInt32.le_toNat_of_le (by decide) h.1, UInt32.toNat_le_of_le (by decide) h.2⟩

theorem digit_not_pyWs {c : Char} (h : c.isDigit = true) : pyWs c = false := by
  by_contra hb
  rw [Bool.not_eq_false] at hb
  simp only [pyWs, Bool.or_eq_true, beq_iff_eq] at hb
  rcases hb with ((((hc | hc) | hc) | hc) | hc) | hc <;>
    · subst hc
      exact absurd h (by decide)

theorem digit_ne_plus {c : Char} (h : c.isDigit = true) : c ≠ '+' := by
  intro hc
  subst hc
  exact absurd h (by decide)

theorem digit_ne_minus {c : Char} (h : c.isDigit = true) : c ≠ '-' := by
  intro hc
  subst hc
  exact absurd h (by decide)

theorem digit_ne_d {c : Char} (h : c.isDigit = true) : c ≠ 'd' := by
  intro hc
  subst hc
  exact absurd h (by decide)

theorem digit_ne_space {c : Char} (h : c.isDigit = true) : c ≠ ' ' := by
  intro hc
  subst hc
  exact absurd h (by decide)

theorem digit_ne_underscore {c : Char} (h : c.isDigit = true) : c ≠ '_' := by
  intro hc
  subst hc
  exact absurd h (by decide)

theorem digit_toLower {c : Char} (h : c.isDigit = true) : c.toLower = c := by
  have hb := isDigit_toNat h
  simp only [Char.toLower]
  split
  · next hcond =>
    exfalso
    omega
  · rfl

theorem dropWhile_eq_self_of {p : Char → Bool} {l : List Char}
    (h : ∀ c ∈ l, p c = false) : l.dropWhile p = l := by
  cases l with
  | nil => rfl
  | cons c rest => simp [List.dropWhile_cons, h c (by simp)]

theorem stripWs_eq_self {l : List Char} (h : ∀ c ∈ l, pyWs c = false) :
    stripWs l = l := by
  unfold stripWs
  rw [dropWhile_eq_self_of h,
    dropWhile_eq_self_of (fun c hc => h c (List.mem_reverse.mp hc)),
    List.reverse_reverse]

theorem pyInt_stripped {l : List Char} {c : Char} {rest : List Char}
    (h : stripWs l = c :: rest) : pyInt l = pySigned c rest := by
  unfold pyInt
  rw [h]

theorem pyInt_digits (l : List Char) (hne : l ≠ []) (h : ∀ c ∈ l, c.isDigit = true) :
    pyInt l = some ((digitsVal 0 l : Nat) : Int) := by
  cases l with
  | nil => exact absurd rfl hne
  | cons c rest =>
    have hc := h c (by simp)
    rw [pyInt_stripped (stripWs_eq_self (fun x hx => digit_not_pyWs (h x hx)))]
    unfold pySigned
    rw [if_neg (digit_ne_plus hc), if_neg (digit_ne_minus hc)]
    rw [parseDigits_digits _ (by simp) h]

theorem pyInt_natDigits (n : Nat) : pyInt (natDigits n) = some (n : Int) := by
  rw [pyInt_digits _ (natDigits_ne_nil n) (natDigits_all_digit n)]
  rw [show digitsVal 0 (natDigits n) = n by rw [digitsVal_natDigits]; simp]

theorem pyInt_plus_natDigits (n : Nat) :
    pyInt ('+' :: natDigits n) = some (n : Int) := by
  rw [pyInt_stripped (stripWs_eq_self ?hws)]
  case hws =>
    intro c hc
    rcases List.mem_cons.mp hc with rfl | hm
    · decide
    · exact digit_not_pyWs (natDigits_all_digit n c hm)
  unfold pySigned
  rw [if_pos rfl, parseDigits_natDigits]

theorem pyInt_minus_natDigits (n : Nat) :
    pyInt ('-' :: natDigits n) = some (-(n : Int)) := by
  rw [pyInt_stripped (stripWs_eq_self ?hws)]
  case hws =>
    intro c hc
    rcases List.mem_cons.mp hc with rfl | hm
    · decide
    · exact digit_not_pyWs (natDigits_all_digit n c hm)
  unfold pySigned
  rw [if_neg (by decide), if_pos rfl, parseDigits_natDigits]

theorem pyInt_intRepr (k : Int) : pyInt (intRepr k) = some k := by
  unfold intRepr
  split
  · next h =>
    rw [pyInt_minus_natDigits]
    congr 1
    omega
  · next h =>
    rw [pyInt_natDigits]
    congr 1
    omega

/- ------------------------------------------------------------------ -/
/- Lemmas: soundness of pyInt over character classes.                  -/
/- ------------------------------------------------------------------ -/

theorem goDigits_sound_fuel (fuel : Nat) :
    ∀ (l : List Char) (acc n : Nat), l.length ≤ fuel → goDigits acc l = some n →
      ∀ c ∈ l, c.isDigit = true ∨ c = '_' := by
  induction fuel with
  | zero =>
    intro l acc n hlen _ c hc
    have hnil : l = [] := List.length_eq_zero.mp (by omega)
    subst hnil
    simp at hc
  | succ f ih =>
    intro l acc n hlen h c hc
    cases l with
    | nil => simp at hc
    | cons c0 rest =>
      rw [goDigits.eq_def] at h
      by_cases hc0 : c0.isDigit = true
      · simp only [hc0, if_true] at h
        rcases List.mem_cons.mp hc with rfl | hm
        · exact Or.inl hc0
        · exact ih rest _ n (by simpa using hlen) h c hm
      · simp only [hc0, Bool.false_eq_true, if_false] at h
        by_cases hu : c0 = '_'
        · simp only [hu, if_pos rfl] at h
          cases rest with
          | nil => exact absurd h (by simp)
          | cons d rest' =>
            by_cases hd : d.isDigit = true
            · simp only [hd, if_true] at h
              rcases List.mem_cons.mp hc with rfl | hm
              · exact Or.inr hu
              · rcases List.mem_cons.mp hm with rfl | hm'
                · exact Or.inl hd
                · refine ih rest' _ n ?_ h c hm'
                  simp only [List.length_cons] at hlen
                  omega
            · simp [hd] at h
        · simp [hu] at h

theorem goDigits_sound {acc : Nat} {l : List Char} {n : Nat}
    (h : goDigits acc l = some n) : ∀ c ∈ l, c.isDigit = true ∨ c = '_' :=
  goDigits_sound_fuel l.length l acc n le_rfl h

theorem parseDigits_sound {l : List Char} {n : Nat}
    (h : parseDigits l = some n) : ∀ c ∈ l, c.isDigit = true ∨ c = '_' := by
  cases l with
  | nil => intro c hc; simp at hc
  | cons c rest =>
    unfold parseDigits at h
    by_cases hc : c.isDigit = true
    · simp only [hc, if_true] at h
      intro x hx
      rcases List.mem_cons.mp hx with rfl | hm
      · exact Or.inl hc
      · exact goDigits_sound h x hm
    · simp [hc] at h

theorem pySigned_sound {c : Char} {rest : List Char} {n : Int}
    (h : pySigned c rest = some n) :
    ∀ x ∈ c :: rest, x = '+' ∨ x = '-' ∨ x.isDigit = true ∨ x = '_' := by
  unfold pySigned at h
  intro x hx
  by_cases hp : c = '+'
  · rw [if_pos hp] at h
    rcases hpd : parseDigits rest with _ | m
    · rw [hpd] at h; simp at h
    rcases List.mem_cons.mp hx with rfl | hmem
    · exact Or.inl hp
    · rcases parseDigits_sound hpd x hmem with hd | hd
      · exact Or.inr (Or.inr (Or.inl hd))
      · exact Or.inr (Or.inr (Or.inr hd))
  · rw [if_neg hp] at h
    by_cases hmn : c = '-'
    · rw [if_pos hmn] at h
      rcases hpd : parseDigits rest with _ | m
      · rw [hpd] at h; simp at h
      rcases List.mem_cons.mp hx with rfl | hmem
      · exact Or.inr (Or.inl hmn)
      · rcases parseDigits_sound hpd x hmem with hd | hd
        · exact Or.inr (Or.inr (Or.inl hd))
        · exact Or.inr (Or.inr (Or.inr hd))
    · rw [if_neg hmn] at h
      rcases hpd : parseDigits (c :: rest) with _ | m
      · rw [hpd] at h; simp at h
      rcases parseDigits_sound hpd x hx with hd | hd
      · exact Or.inr (Or.inr (Or.inl hd))
      · exact Or.inr (Or.inr (Or.inr hd))

theorem mem_dropWhile_or {p : Char → Bool} {l : List Char} {c : Char} (h : c ∈ l) :
    c ∈ l.dropWhile p ∨ p c = true := by
  have hsplit := List.takeWhile_append_dropWhile (p := p) (l := l)
  rw [← hsplit] at h
  rcases List.mem_append.mp h with ht | hd
  · exact Or.inr (List.mem_takeWhile_imp ht)
  · exact Or.inl hd

theorem mem_stripWs_or {l : List Char} {c : Char} (h : c ∈ l) :
    c ∈ stripWs l ∨ pyWs c = true := by
  unfold stripWs
  rcases mem_dropWhile_or (p := pyWs) h with h1 | hw
  · rcases mem_dropWhile_or (p := pyWs) (List.mem_reverse.mpr h1) with h2 | hw
    · exact Or.inl (List.mem_reverse.mpr h2)
    · exact Or.inr hw
  · exact Or.inr hw

theorem pyInt_sound {l : List Char} {n : Int} (h : pyInt l = some n) :
    ∀ c ∈ l, pyWs c = true ∨ c = '+' ∨ c = '-' ∨ c.isDigit = true ∨ c = '_' := by
  intro c hc
  rcases mem_stripWs_or hc with hs | hw
  · unfold pyInt at h
    rcases hstrip : stripWs l with _ | ⟨c0, rest⟩
    · rw [hstrip] at h
      simp at h
    · rw [hstrip] at h hs
      exact Or.inr (pySigned_sound h c hs)
  · exact Or.inl hw

/- ------------------------------------------------------------------ -/
/- Lemmas: list reads and the modifier scan.                           -/
/- ------------------------------------------------------------------ -/

theorem getD_append_left {a b : List Char} {i : Nat} (h : i < a.length) (d : Char) :
    (a ++ b).getD i d = a.getD i d := by
  induction a generalizing i with
  | nil => simp at h
  | cons x rest ih =>
    cases i with
    | zero => rfl
    | succ j =>
      simp only [List.cons_append, List.getD_cons_succ]
      exact ih (by simpa using h)

theorem getD_append_right (a b : List Char) (u : Nat) (d : Char) :
    (a ++ b).getD (a.length + u) d = b.getD u d := by
  induction a with
  | nil => simp
  | cons x rest ih =>
    simp only [List.cons_append, List.length_cons]
    rw [show rest.length + 1 + u = (rest.length + u) + 1 by omega]
    simpa using ih

theorem getD_mem_of_lt {l : List Char} {i : Nat} (h : i < l.length) (d : Char) :
    l.getD i d ∈ l := by
  rw [List.getD_eq_getElem l d h]
  exact List.getElem_mem h

theorem findModIdxAux_zero (e : List Char) : findModIdxAux e 0 = none := rfl

theorem findModIdxAux_succ (e : List Char) (i : Nat) :
    findModIdxAux e (i + 1) =
      if findModCond e i then some i else findModIdxAux e i := rfl

theorem findModIdxAux_none {e : List Char}
    (h : ∀ t : Nat, ¬(e.getD t ' ' = '+' ∨ e.getD t ' ' = '-')) (i : Nat) :
    findModIdxAux e i = none := by
  induction i with
  | zero => rfl
  | succ j ih =>
    rw [findModIdxAux_succ, if_neg]
    · exact ih
    · intro hcond
      exact h j hcond.1

theorem findModIdx_none {e : List Char} (h : ∀ c ∈ e, c ≠ '+' ∧ c ≠ '-') :
    findModIdx e = none := by
  apply findModIdxAux_none
  intro t
  by_cases ht : t < e.length
  · have hm := getD_mem_of_lt ht ' '
    intro hc
    rcases hc with hc | hc
    · exact (h _ hm).1 hc
    · exact (h _ hm).2 hc
  · rw [List.getD_eq_default _ _ (by omega)]
    decide

theorem findModIdxAux_skip {e : List Char} {i : Nat} (j : Nat)
    (h : ∀ t : Nat, i ≤ t → t < i + j → ¬(e.getD t ' ' = '+' ∨ e.getD t ' ' = '-')) :
    findModIdxAux e (i + j) = findModIdxAux e i := by
  induction j with
  | zero => rfl
  | succ k ih =>
    rw [show i + (k + 1) = (i + k) + 1 by omega]
    rw [findModIdxAux_succ, if_neg]
    · exact ih (fun t h1 h2 => h t h1 (by omega))
    · intro hcond
      exact h (i + k) (by omega) (by omega) hcond.1

theorem findModIdx_at {q kd : List Char} {x s : Char}
    (hx : x.isDigit = true) (hs : s = '+' ∨ s = '-')
    (hkd : ∀ c ∈ kd, c ≠ '+' ∧ c ≠ '-') :
    findModIdx (q ++ x :: s :: kd) = some (q.length + 1) := by
  unfold findModIdx
  have hlen : (q ++ x :: s :: kd).length = (q.length + 2) + kd.length := by
    simp
    omega
  rw [hlen]
  rw [show q.length + 2 + kd.length = (q.length + 2) + kd.length by omega]
  rw [findModIdxAux_skip kd.length ?hskip]
  case hskip =>
    intro t h1 h2
    have ht : t = q.length + (2 + (t - (q.length + 2))) := by omega
    rw [ht, getD_append_right]
    have h2' : 2 + (t - (q.length + 2)) = (t - (q.length + 2)) + 1 + 1 := by omega
    rw [h2']
    simp only [List.getD_cons_succ]
    have hlt : t - (q.length + 2) < kd.length := by omega
    have hm := getD_mem_of_lt hlt ' '
    intro hc
    rcases hc with hc | hc
    · exact (hkd _ hm).1 hc
    · exact (hkd _ hm).2 hc
  rw [show q.length + 2 = (q.length + 1) + 1 by omega]
  rw [findModIdxAux_succ, if_pos]
  · constructor
    · rw [show q.length + 1 = q.length + (0 + 1) by omega, getD_append_right]
      simpa using hs
    · right
      left
      rw [show q.length + 1 - 1 = q.length + 0 by omega, getD_append_right]
      simpa using hx

theorem splitD_append {a b : List Char} (h : ∀ c ∈ a, c ≠ 'd') :
    splitD (a ++ 'd' :: b) = some (a, b) := by
  induction a with
  | nil => simp [splitD]
  | cons c rest ih =>
    simp only [List.cons_append]
    unfold splitD
    rw [if_neg (h c (by simp))]
    rw [ih (fun x hx => h x (by simp [hx]))]
    rfl

theorem filter_ne_space_eq_self {l : List Char} (h : ∀ c ∈ l, c ≠ ' ') :
    l.filter (fun c => c != ' ') = l := by
  rw [List.filter_eq_self]
  intro c hc
  simpa using h c hc

theorem map_toLower_eq_self {l : List Char} (h : ∀ c ∈ l, c.toLower = c) :
    l.map Char.toLower = l := by
  rw [List.map_congr_left h]
  simp

theorem dropWhile_all_of_eq_nil {p : Char → Bool} {l : List Char}
    (h : l.dropWhile p = []) : ∀ c ∈ l, p c = true := by
  induction l with
  | nil => intro c hc; simp at hc
  | cons c rest ih =>
    rw [List.dropWhile_cons] at h
    by_cases hp : p c = true
    · rw [if_pos hp] at h
      intro x hx
      rcases List.mem_cons.mp hx with rfl | hm
      · exact hp
      · exact ih h x hm
    · rw [if_neg hp] at h
      simp at h

/- ------------------------------------------------------------------ -/
/- Canonical dice expressions NdM+K and their evaluation.              -/
/- ------------------------------------------------------------------ -/

/-- Characters of the optional dice-count part: the numeral of N when
present, nothing when the count is omitted. -/
def ndChars (nPart : Option Nat) : List Char :=
  match nPart with
  | some n => natDigits n
  | none => []

/-- Characters of the optional trailing signed modifier. -/
def modChars (k : Int) : List Char :=
  if k = 0 then []
  else if 0 < k then '+' :: natDigits k.toNat
  else '-' :: natDigits (-k).toNat

/-- Character list of the canonical dice expression [N]dM[(+|-)K]. -/
def diceChars (nPart : Option Nat) (m : Nat) (k : Int) : List Char :=
  (ndChars nPart ++ ('d' :: natDigits m)) ++ modChars k

/-- The canonical dice expression [N]dM[(+|-)K] as a string. -/
def mkDiceExpr (nPart : Option Nat) (m : Nat) (k : Int) : String :=
  ⟨diceChars nPart m k⟩

/-- The detail string that roll_expression produces for a dice roll. -/
def mkDetail (rolls : List Nat) (k : Int) : String :=
  ⟨("rolls=").data ++ rollsRepr rolls ++ (if k ≠ 0 then ' ' :: plusFmt k else [])⟩

theorem ndChars_all_digit (nPart : Option Nat) :
    ∀ c ∈ ndChars nPart, c.isDigit = true := by
  intro c hc
  cases nPart with
  | none => simp [ndChars] at hc
  | some n => exact natDigits_all_digit n c hc

theorem modChars_cases (k : Int) :
    modChars k = [] ∧ k = 0 ∨
      (∃ s kd, modChars k = s :: kd ∧ (s = '+' ∨ s = '-') ∧
        (∀ c ∈ kd, c.isDigit = true) ∧ pyInt (modChars k) = some k) := by
  unfold modChars
  by_cases h0 : k = 0
  · rw [if_pos h0]
    exact Or.inl ⟨rfl, h0⟩
  · rw [if_neg h0]
    by_cases hpos : 0 < k
    · rw [if_pos hpos]
      refine Or.inr ⟨'+', natDigits k.toNat, rfl, Or.inl rfl, natDigits_all_digit _, ?_⟩
      rw [pyInt_plus_natDigits]
      congr 1
      omega
    · rw [if_neg hpos]
      refine Or.inr ⟨'-', natDigits (-k).toNat, rfl, Or.inr rfl, natDigits_all_digit _, ?_⟩
      rw [pyInt_minus_natDigits]
      congr 1
      omega

theorem diceChars_classify (nPart : Option Nat) (m : Nat) (k : Int) :
    ∀ c ∈ diceChars nPart m k,
      c.isDigit = true ∨ c = 'd' ∨ c = '+' ∨ c = '-' := by
  intro c hc
  unfold diceChars at hc
  rcases List.mem_append.mp hc with h1 | h2
  · rcases List.mem_append.mp h1 with ha | hb
    · exact Or.inl (ndChars_all_digit nPart c ha)
    · rcases List.mem_cons.mp hb with rfl | hm
      · exact Or.inr (Or.inl rfl)
      · exact Or.inl (natDigits_all_digit m c hm)
  · rcases modChars_cases k with ⟨hnil, _⟩ | ⟨s, kd, heq, hs, hkd, _⟩
    · rw [hnil] at h2
      simp at h2
    · rw [heq] at h2
      rcases List.mem_cons.mp h2 with rfl | hm
      · rcases hs with rfl | rfl
        · exact Or.inr (Or.inr (Or.inl rfl))
        · exact Or.inr (Or.inr (Or.inr rfl))
      · exact Or.inl (hkd c hm)

theorem diceChars_not_space (nPart : Option Nat) (m : Nat) (k : Int) :
    ∀ c ∈ diceChars nPart m k, c ≠ ' ' := by
  intro c hc
  rcases diceChars_classify nPart m k c hc with h | h | h | h
  · exact digit_ne_space h
  · subst h; decide
  · subst h; decide
  · subst h; decide

theorem diceChars_toLower (nPart : Option Nat) (m : Nat) (k : Int) :
    ∀ c ∈ diceChars nPart m k, c.toLower = c := by
  intro c hc
  rcases diceChars_classify nPart m k c hc with h | h | h | h
  · exact digit_toLower h
  · subst h; decide
  · subst h; decide
  · subst h; decide

theorem diceChars_not_ws (nPart : Option Nat) (m : Nat) (k : Int) :
    ∀ c ∈ diceChars nPart m k, pyWs c = false := by
  intro c hc
  rcases diceChars_classify nPart m k c hc with h | h | h | h
  · exact digit_not_pyWs h
  · subst h; decide
  · subst h; decide
  · subst h; decide

theorem rollExpression_strip_check {l : List Char} {c0 : Char}
    (hmem : c0 ∈ l) (hws : pyWs c0 = false) :
    ((l.dropWhile pyWs).reverse.dropWhile pyWs ≠ []) := by
  intro hempty
  have hall := dropWhile_all_of_eq_nil hempty
  rcases mem_dropWhile_or (p := pyWs) hmem with h1 | h1
  · have := hall c0 (List.mem_reverse.mpr h1)
    rw [hws] at this
    exact absurd this (by decide)
  · rw [hws] at h1
    exact absurd h1 (by decide)

/- Reduction lemmas for the branch structure of roll_expression. -/

theorem rollExpression_find_none {s : String} {dice : Nat → Nat}
    (hne : (s.data.dropWhile pyWs).reverse.dropWhile pyWs ≠ [])
    (hfind : findModIdx ((s.data.filter (fun c => c != ' ')).map Char.toLower) = none) :
    rollExpression s dice =
      rollCore ((s.data.filter (fun c => c != ' ')).map Char.toLower) 0 dice := by
  unfold rollExpression
  rw [if_neg hne, hfind]

theorem rollExpression_find_some {s : String} {dice : Nat → Nat} {i : Nat}
    (hne : (s.data.dropWhile pyWs).reverse.dropWhile pyWs ≠ [])
    (hfind : findModIdx ((s.data.filter (fun c => c != ' ')).map Char.toLower) = some i) :
    rollExpression s dice =
      rollModSplit ((s.data.filter (fun c => c != ' ')).map Char.toLower) i dice := by
  unfold rollExpression
  rw [if_neg hne, hfind]

theorem rollModSplit_parsed {e0 : List Char} {i : Nat} {plus : Int} {dice : Nat → Nat}
    (h : pyInt (e0.drop i) = some plus) :
    rollModSplit e0 i dice = rollCore (e0.take i) plus dice := by
  unfold rollModSplit
  rw [h]

theorem rollCore_withD {e a b : List Char} {plus : Int} {dice : Nat → Nat}
    (hne : e ≠ []) (h : splitD e = some (a, b)) :
    rollCore e plus dice = rollDice a b plus dice := by
  unfold rollCore
  rw [if_neg hne, h]

theorem rollCore_withoutD {e : List Char} {plus : Int} {dice : Nat → Nat}
    (hne : e ≠ []) (h : splitD e = none) :
    rollCore e plus dice = rollConst e plus := by
  unfold rollCore
  rw [if_neg hne, h]

theorem rollDice_eval {nStr mStr : List Char} {nv mv : Int} (plus : Int) (dice : Nat → Nat)
    (hn : (if nStr = [] then some 1 else pyInt nStr) = some nv)
    (hm : pyInt mStr = some mv) :
    rollDice nStr mStr plus dice =
      (if nv < 1 ∨ mv < 1 ∨ nv > 1000 ∨ mv > 10000 then
        Except.error ("Dice counts/sizes out of allowed range")
      else
        Except.ok ((((List.range nv.toNat).map dice).sum : Nat) + plus,
          String.mk (("rolls=").data ++ rollsRepr ((List.range nv.toNat).map dice) ++
            (if plus ≠ 0 then ' ' :: plusFmt plus else [])))) := by
  unfold rollDice
  rw [hn, hm]

/-- Evaluation of roll_expression on a canonical dice expression: the
parse always reaches the bounds check with the written N (defaulting to
one when omitted) and M, and in bounds returns the summed rolls plus the
modifier together with the detail string. -/
theorem rollExpression_mkDiceExpr (nPart : Option Nat) (M : Nat) (k : Int)
    (dice : Nat → Nat) :
    rollExpression (mkDiceExpr nPart M k) dice =
      (if (nPart.getD 1 : Int) < 1 ∨ (M : Int) < 1 ∨
          (nPart.getD 1 : Int) > 1000 ∨ (M : Int) > 10000 then
        Except.error ("Dice counts/sizes out of allowed range")
      else
        Except.ok (((((List.range (nPart.getD 1)).map dice).sum : Nat) : Int) + k,
          mkDetail ((List.range (nPart.getD 1)).map dice) k)) := by
  have hdmem : 'd' ∈ diceChars nPart M k := by
    unfold diceChars
    exact List.mem_append.mpr (Or.inl (List.mem_append.mpr (Or.inr (by simp))))
  have hne : ((mkDiceExpr nPart M k).data.dropWhile pyWs).reverse.dropWhile pyWs ≠ [] := by
    rw [show (mkDiceExpr nPart M k).data = diceChars nPart M k from rfl]
    exact rollExpression_strip_check hdmem (by decide)
  have hL : ((mkDiceExpr nPart M k).data.filter (fun c => c != ' ')).map Char.toLower =
      diceChars nPart M k := by
    rw [show (mkDiceExpr nPart M k).data = diceChars nPart M k from rfl]
    rw [filter_ne_space_eq_self (diceChars_not_space nPart M k),
      map_toLower_eq_self (diceChars_toLower nPart M k)]
  have hndd : ∀ c ∈ ndChars nPart, c ≠ 'd' :=
    fun c hc => digit_ne_d (ndChars_all_digit nPart c hc)
  have hnOpt : (if ndChars nPart = [] then some 1 else pyInt (ndChars nPart)) =
      some ((nPart.getD 1 : Nat) : Int) := by
    cases nPart with
    | none => simp [ndChars]
    | some n =>
      rw [if_neg (by simp only [ndChars]; exact natDigits_ne_nil n)]
      simp only [ndChars, Option.getD_some]
      exact pyInt_natDigits n
  have hcore : rollCore (ndChars nPart ++ ('d' :: natDigits M)) k dice =
      (if (nPart.getD 1 : Int) < 1 ∨ (M : Int) < 1 ∨
          (nPart.getD 1 : Int) > 1000 ∨ (M : Int) > 10000 then
        Except.error ("Dice counts/sizes out of allowed range")
      else
        Except.ok (((((List.range (nPart.getD 1)).map dice).sum : Nat) : Int) + k,
          mkDetail ((List.range (nPart.getD 1)).map dice) k)) := by
    rw [rollCore_withD (by simp) (splitD_append hndd)]
    rw [rollDice_eval k dice hnOpt (pyInt_natDigits M)]
    by_cases hb : (nPart.getD 1 : Int) < 1 ∨ (M : Int) < 1 ∨
        (nPart.getD 1 : Int) > 1000 ∨ (M : Int) > 10000
    · rw [if_pos hb, if_pos hb]
    · rw [if_neg hb, if_neg hb]
      rw [show ((nPart.getD 1 : Nat) : Int).toNat = nPart.getD 1 by omega]
      rfl
  rcases modChars_cases k with ⟨hnil, hk0⟩ | ⟨s, kd, heq, hs, hkd, hpy⟩
  · subst hk0
    have hplain : diceChars nPart M 0 = ndChars nPart ++ ('d' :: natDigits M) := by
      unfold diceChars
      rw [hnil]
      simp
    have hfind : findModIdx (((mkDiceExpr nPart M 0).data.filter
        (fun c => c != ' ')).map Char.toLower) = none := by
      rw [hL, hplain]
      apply findModIdx_none
      intro c hc
      rcases List.mem_append.mp hc with ha | hb
      · have := ndChars_all_digit nPart c ha
        exact ⟨digit_ne_plus this, digit_ne_minus this⟩
      · rcases List.mem_cons.mp hb with rfl | hm
        · exact ⟨by decide, by decide⟩
        · have := natDigits_all_digit M c hm
          exact ⟨digit_ne_plus this, digit_ne_minus this⟩
    rw [rollExpression_find_none hne hfind, hL, hplain]
    exact hcore
  · have hmdne := natDigits_ne_nil M
    obtain ⟨md0, x, hmd, hx⟩ :
        ∃ md0 x, natDigits M = md0 ++ [x] ∧ x.isDigit = true :=
      ⟨(natDigits M).dropLast, (natDigits M).getLast hmdne,
        (List.dropLast_append_getLast hmdne).symm,
        natDigits_all_digit M _ (List.getLast_mem hmdne)⟩
    have hassoc : diceChars nPart M k =
        (ndChars nPart ++ ('d' :: md0)) ++ x :: s :: kd := by
      unfold diceChars
      rw [heq, hmd]
      simp
    have hfind : findModIdx (((mkDiceExpr nPart M k).data.filter
        (fun c => c != ' ')).map Char.toLower) =
        some ((ndChars nPart ++ ('d' :: md0)).length + 1) := by
      rw [hL, hassoc]
      exact findModIdx_at hx hs
        (fun c hc => ⟨digit_ne_plus (hkd c hc), digit_ne_minus (hkd c hc)⟩)
    have hsplit : (ndChars nPart ++ ('d' :: md0)) ++ x :: s :: kd =
        ((ndChars nPart ++ ('d' :: md0)) ++ [x]) ++ s :: kd := by simp
    have hlen : (ndChars nPart ++ ('d' :: md0)).length + 1 =
        ((ndChars nPart ++ ('d' :: md0)) ++ [x]).length := by
      simp
      omega
    have hdrop : (diceChars nPart M k).drop ((ndChars nPart ++ ('d' :: md0)).length + 1) =
        s :: kd := by
      rw [hassoc, hsplit, hlen, List.drop_left]
    have htake : (diceChars nPart M k).take ((ndChars nPart ++ ('d' :: md0)).length + 1) =
        ndChars nPart ++ ('d' :: natDigits M) := by
      rw [hassoc, hsplit, hlen, List.take_left, hmd]
      simp
    rw [rollExpression_find_some hne hfind, hL]
    rw [rollModSplit_parsed (by rw [hdrop, ← heq]; exact hpy)]
    rw [htake]
    exact hcore

/- ------------------------------------------------------------------ -/
/- Error paths of roll_expression.                                     -/
/- ------------------------------------------------------------------ -/

/-- Whether a fallible result is an error (a raised ValueError). -/
def isErr {α : Type} (r : Except String α) : Bool :=
  match r with
  | .error _ => true
  | .ok _ => false

/-- The characters that any successful parse of roll_expression can
consume: digits, the letter d, the two signs, the underscore that
CPython int() tolerates, and whitespace. -/
def goodExprChar (c : Char) : Bool :=
  c.isDigit || c == 'd' || c == '+' || c == '-' || c == '_' || pyWs c

theorem goodExprChar_false {b : Char} (h : goodExprChar b = false) :
    b.isDigit = false ∧ b ≠ 'd' ∧ b ≠ '+' ∧ b ≠ '-' ∧ b ≠ '_' ∧ pyWs b = false := by
  simp only [goodExprChar, Bool.or_eq_false_iff, beq_eq_false_iff_ne, ne_eq] at h
  exact ⟨h.1.1.1.1.1, h.1.1.1.1.2, h.1.1.1.2, h.1.1.2, h.1.2, h.2⟩

theorem pyInt_none_of_bad {l : List Char} {b : Char} (hb : b ∈ l)
    (hbad : goodExprChar b = false) : pyInt l = none := by
  obtain ⟨h1, _, h3, h4, h5, h6⟩ := goodExprChar_false hbad
  cases hres : pyInt l with
  | none => rfl
  | some n =>
    exfalso
    rcases pyInt_sound hres b hb with h | h | h | h | h
    · rw [h6] at h; exact absurd h (by decide)
    · exact h3 h
    · exact h4 h
    · rw [h1] at h; exact absurd h (by decide)
    · exact h5 h

theorem splitD_sound {e : List Char} {a b : List Char}
    (h : splitD e = some (a, b)) : e = a ++ 'd' :: b := by
  induction e generalizing a with
  | nil =>
    rw [show splitD ([] : List Char) = none from rfl] at h
    exact absurd h (by simp)
  | cons c rest ih =>
    unfold splitD at h
    by_cases hc : c = 'd'
    · rw [if_pos hc] at h
      simp only [Option.some.injEq, Prod.mk.injEq] at h
      rw [← h.1, ← h.2, hc]
      simp
    · rw [if_neg hc] at h
      cases hsp : splitD rest with
      | none => rw [hsp] at h; simp at h
      | some p =>
        obtain ⟨a', b'⟩ := p
        rw [hsp] at h
        rw [show Option.map (fun p => (c :: p.1, p.2)) (some (a', b')) = some (c :: a', b')
          from rfl] at h
        simp only [Option.some.injEq, Prod.mk.injEq] at h
        obtain ⟨h1, h2⟩ := h
        subst h2
        have hrest := ih (a := a') hsp
        rw [← h1, hrest]
        simp

theorem rollDice_err_n {nStr mStr : List Char} {plus : Int} {dice : Nat → Nat}
    (hne : nStr ≠ []) (h : pyInt nStr = none) :
    rollDice nStr mStr plus dice = Except.error ("Invalid dice count/size") := by
  unfold rollDice
  cases hm : pyInt mStr <;> rw [if_neg hne, h]

theorem rollDice_err_m {nStr mStr : List Char} {plus : Int} {dice : Nat → Nat}
    (h : pyInt mStr = none) :
    rollDice nStr mStr plus dice = Except.error ("Invalid dice count/size") := by
  unfold rollDice
  cases hn : (if nStr = [] then some 1 else pyInt nStr) <;> rw [h]

theorem rollCore_error_of_bad {e : List Char} {plus : Int} {dice : Nat → Nat} {b : Char}
    (hb : b ∈ e) (hbad : goodExprChar b = false) :
    ∃ msg, rollCore e plus dice = Except.error msg := by
  have hne : e ≠ [] := by
    intro hnil
    rw [hnil] at hb
    simp at hb
  cases hsp : splitD e with
  | none =>
    rw [rollCore_withoutD hne hsp]
    unfold rollConst
    rw [pyInt_none_of_bad hb hbad]
    exact ⟨_, rfl⟩
  | some p =>
    obtain ⟨a, bb⟩ := p
    have he := splitD_sound hsp
    rw [rollCore_withD hne hsp]
    have hbd : b ≠ 'd' := (goodExprChar_false hbad).2.1
    rw [he] at hb
    rcases List.mem_append.mp hb with hba | hbb
    · refine ⟨_, rollDice_err_n ?_ (pyInt_none_of_bad hba hbad)⟩
      intro hnil
      rw [hnil] at hba
      simp at hba
    · rcases List.mem_cons.mp hbb with rfl | hbb'
      · exact absurd rfl hbd
      · exact ⟨_, rollDice_err_m (pyInt_none_of_bad hbb' hbad)⟩

theorem rollExpression_error_of_bad {s : String} {dice : Nat → Nat} {b : Char}
    (hb : b ∈ (s.data.filter (fun c => c != ' ')).map Char.toLower)
    (hbad : goodExprChar b = false) :
    ∃ msg, rollExpression s dice = Except.error msg := by
  by_cases hne : (s.data.dropWhile pyWs).reverse.dropWhile pyWs = []
  · refine ⟨"Empty expression", ?_⟩
    unfold rollExpression
    rw [if_pos hne]
  · cases hfind : findModIdx ((s.data.filter (fun c => c != ' ')).map Char.toLower) with
    | none =>
      rw [rollExpression_find_none hne hfind]
      exact rollCore_error_of_bad hb hbad
    | some i =>
      rw [rollExpression_find_some hne hfind]
      rw [← List.take_append_drop i ((s.data.filter (fun c => c != ' ')).map Char.toLower)]
        at hb
      rcases List.mem_append.mp hb with htk | hdr
      · cases hpi : pyInt (((s.data.filter (fun c => c != ' ')).map Char.toLower).drop i) with
        | none =>
          refine ⟨"Invalid modifier in expression", ?_⟩
          unfold rollModSplit
          rw [hpi]
        | some plus =>
          rw [rollModSplit_parsed hpi]
          exact rollCore_error_of_bad htk hbad
      · refine ⟨"Invalid modifier in expression", ?_⟩
        unfold rollModSplit
        rw [pyInt_none_of_bad hdr hbad]

theorem sum_range_map_bounds (N M : Nat) (dice : Nat → Nat)
    (h : ∀ i, i < N → 1 ≤ dice i ∧ dice i ≤ M) :
    N ≤ ((List.range N).map dice).sum ∧ ((List.range N).map dice).sum ≤ N * M := by
  induction N with
  | zero => simp
  | succ n ih =>
    rw [List.range_succ, List.map_append, List.sum_append]
    simp only [List.map_cons, List.map_nil, List.sum_cons, List.sum_nil]
    have hn := h n (by omega)
    have hih := ih (fun i hi => h i (by omega))
    rw [Nat.succ_mul]
    omega

/-- The dice-expression grammar as the specification words it, applied
after space removal and lowercasing: an optional digit run N, the letter
d, a digit run M, an optional sign followed by a digit run K; or a bare
integer with optional sign (the modifier-only form included).  This
definition follows the spec's words and exists to compare that grammar
with the implementation's parser. -/
def specWellFormed (l : List Char) : Bool :=
  match l.dropWhile Char.isDigit with
  | 'd' :: r2 =>
    (!(r2.takeWhile Char.isDigit).isEmpty) &&
    (match r2.dropWhile Char.isDigit with
     | [] => true
     | s :: rest => (s == '+' || s == '-') && !rest.isEmpty && rest.all Char.isDigit)
  | _ =>
    match l with
    | [] => false
    | s :: rest =>
      if s == '+' || s == '-' then !rest.isEmpty && rest.all Char.isDigit
      else l.all Char.isDigit

/-- C8 counterexample: the expression 1_0d6 is not of the NdM+K form
(its count is not a decimal numeral), yet roll_expression does not raise:
Python int() accepts the underscore, and the expression silently rolls
ten dice. -/
theorem roll_expression_malformed_counterexample :
    specWellFormed ((("1_0d6").data.filter (fun c => c != ' ')).map Char.toLower) = false ∧
    rollExpression ("1_0d6") (fun _ => 1) =
      Except.ok (10, "rolls=[1, 1, 1, 1, 1, 1, 1, 1, 1, 1]") := by
  constructor
  · rfl
  · rfl

/-- C8 (amended): a canonical dice expression [N]dM(+|-)K with N
(defaulting to one when omitted) and M in bounds evaluates to a total of
the N individual rolls plus K, in the inclusive range [N+K, N*M+K], with
the detail string listing the rolls and the signed modifier when
nonzero; N or M out of bounds raises; and any expression whose
space-stripped lowercased form contains a character other than a digit,
the letter d, a sign, an underscore, or whitespace raises.  (Python's
int() leniency means some non-canonical numerals, such as
underscore-separated digit groups, are instead parsed as integers; the
unamended claim fails on those.) -/
theorem roll_expression_spec :
    (∀ (nPart : Option Nat) (M : Nat) (k : Int) (dice : Nat → Nat),
      1 ≤ nPart.getD 1 → nPart.getD 1 ≤ 1000 → 1 ≤ M → M ≤ 10000 →
      (∀ i, i < nPart.getD 1 → 1 ≤ dice i ∧ dice i ≤ M) →
      ∃ rolls : List Nat,
        rolls = (List.range (nPart.getD 1)).map dice ∧
        rolls.length = nPart.getD 1 ∧
        rollExpression (mkDiceExpr nPart M k) dice =
          Except.ok (((rolls.sum : Nat) : Int) + k, mkDetail rolls k) ∧
        (nPart.getD 1 : Int) + k ≤ ((rolls.sum : Nat) : Int) + k ∧
        ((rolls.sum : Nat) : Int) + k ≤ (nPart.getD 1 : Int) * (M : Int) + k) ∧
    (∀ (nPart : Option Nat) (M : Nat) (k : Int) (dice : Nat → Nat),
      (nPart.getD 1 = 0 ∨ nPart.getD 1 > 1000 ∨ M = 0 ∨ M > 10000) →
      rollExpression (mkDiceExpr nPart M k) dice =
        Except.error ("Dice counts/sizes out of allowed range")) ∧
    (∀ (s : String) (dice : Nat → Nat),
      (∃ b ∈ (s.data.filter (fun c => c != ' ')).map Char.toLower,
        goodExprChar b = false) →
      isErr (rollExpression s dice) = true) := by
  refine ⟨?pos, ?oob, ?bad⟩
  case pos =>
    intro nPart M k dice h1 h2 h3 h4 hdice
    refine ⟨(List.range (nPart.getD 1)).map dice, rfl, by simp, ?_, ?_, ?_⟩
    · rw [rollExpression_mkDiceExpr]
      rw [if_neg (by omega)]
    · have hb := (sum_range_map_bounds (nPart.getD 1) M dice hdice).1
      omega
    · have hb := (sum_range_map_bounds (nPart.getD 1) M dice hdice).2
      have hb' : ((((List.range (nPart.getD 1)).map dice).sum : Nat) : Int) ≤
          (nPart.getD 1 : Int) * (M : Int) := by exact_mod_cast hb
      omega
  case oob =>
    intro nPart M k dice hoob
    rw [rollExpression_mkDiceExpr]
    rw [if_pos (by omega)]
  case bad =>
    intro s dice hbad
    obtain ⟨b, hb, hgood⟩ := hbad
    obtain ⟨msg, hmsg⟩ := rollExpression_error_of_bad hb hgood
    rw [hmsg]
    rfl

/-- C8 witness: the in-bounds case 3d6+2 with all dice showing three,
the out-of-bounds case 0d6, and the malformed case abc. -/
theorem roll_expression_spec_witness :
    (∃ rolls : List Nat,
      rolls = (List.range ((some 3 : Option Nat).getD 1)).map (fun _ => 3) ∧
      rolls.length = (some 3 : Option Nat).getD 1 ∧
      rollExpression (mkDiceExpr (some 3) 6 2) (fun _ => 3) =
        Except.ok (((rolls.sum : Nat) : Int) + 2, mkDetail rolls 2) ∧
      ((some 3 : Option Nat).getD 1 : Int) + 2 ≤ ((rolls.sum : Nat) : Int) + 2 ∧
      ((rolls.sum : Nat) : Int) + 2 ≤ ((some 3 : Option Nat).getD 1 : Int) * (6 : Int) + 2) ∧
    rollExpression (mkDiceExpr (some 0) 6 0) (fun _ => 1) =
      Except.error ("Dice counts/sizes out of allowed range") ∧
    isErr (rollExpression ("abc") (fun _ => 1)) = true :=
  ⟨roll_expression_spec.1 (some 3) 6 2 (fun _ => 3)
      (by decide) (by decide) (by decide) (by decide) (by decide),
   roll_expression_spec.2.1 (some 0) 6 0 (fun _ => 1) (by decide),
   roll_expression_spec.2.2 ("abc") (fun _ => 1) ⟨'a', by decide, by decide⟩⟩

/- ------------------------------------------------------------------ -/
/- C3: apply_damage semantics.                                         -/
/- ------------------------------------------------------------------ -/

/-- C3: apply_damage takes min(temp_hp, amount) out of temporary HP
first, reduces current HP by the remainder with a floor of zero, and
(computing DC = max(10, ceil(amount/2)) from the full pre-absorption
amount) ends a held concentration exactly when a constitution-save total
was supplied and is strictly below that DC; the result dict reports the
new HP values and the break.  The character invariant temp_hp >= 0 and
the nonnegativity of a damage amount are assumed. -/
theorem apply_damage_spec (c : Character) (amount : Int) (con : Option Int)
    (htemp : 0 ≤ c.temp_hp) (hamt : 0 ≤ amount) :
    (c.apply_damage amount con).1.temp_hp = c.temp_hp - min c.temp_hp amount ∧
    (c.apply_damage amount con).1.current_hp =
      max 0 (c.current_hp - (amount - min c.temp_hp amount)) ∧
    (c.apply_damage amount con).2.current_hp = (c.apply_damage amount con).1.current_hp ∧
    (c.apply_damage amount con).2.temp_hp = (c.apply_damage amount con).1.temp_hp ∧
    ((c.apply_damage amount con).2.concentration_broken = true ↔
      (c.concentration ≠ none ∧ ∃ s, con = some s ∧ s < max 10 (ceilHalf amount))) ∧
    (c.apply_damage amount con).1.concentration =
      (if (c.apply_damage amount con).2.concentration_broken then none
       else c.concentration) ∧
    (c.apply_damage amount con).1 = { c with
      current_hp := (c.apply_damage amount con).1.current_hp,
      temp_hp := (c.apply_damage amount con).1.temp_hp,
      concentration := (c.apply_damage amount con).1.concentration } := by
  have hused : (if c.temp_hp > 0 then min c.temp_hp amount else 0) =
      min c.temp_hp amount := by
    split <;> omega
  unfold Character.apply_damage
  rw [hused]
  refine ⟨rfl, rfl, rfl, rfl, ?_, rfl, rfl⟩
  cases hcc : c.concentration with
  | none =>
    cases con <;> simp
  | some cc =>
    cases con with
    | none => simp
    | some s =>
      simp only [decide_eq_true_eq]
      constructor
      · intro h
        exact ⟨by simp [hcc], s, rfl, h⟩
      · intro ⟨_, s', hs', hlt⟩
        cases hs'
        exact hlt

/-- A concentrating character at 10 HP with 5 temporary HP, used by the
apply_damage witness. -/
def concChar : Character where
  name := "w"
  char_id := "w"
  current_hp := 10
  temp_hp := 5
  concentration := some ⟨SpellVal.obj { name := "s", level := 1 }, 10, 1⟩

/-- C3 witness: the spec's example, a character at 10 HP with 5
temporary HP taking 8 damage while concentrating, with a saving throw of
9 against the DC of 10. -/
theorem apply_damage_spec_witness :
    (0 : Int) ≤ concChar.temp_hp ∧ (0 : Int) ≤ (8 : Int) ∧
    ((concChar.apply_damage 8 (some 9)).1.temp_hp = concChar.temp_hp - min 5 8 ∧
      (concChar.apply_damage 8 (some 9)).2.concentration_broken = true) := by
  refine ⟨by decide, by decide, ?_, by decide⟩
  have h := (apply_damage_spec concChar 8 (some 9) (by decide) (by decide)).1
  exact h

/- ------------------------------------------------------------------ -/
/- C10: the HP invariant under apply_damage and heal.                  -/
/- ------------------------------------------------------------------ -/

/-- The documented character invariant on hit points. -/
def CharInv (c : Character) : Prop :=
  0 ≤ c.current_hp ∧ c.current_hp ≤ c.max_hp ∧ 0 ≤ c.temp_hp

instance (c : Character) : Decidable (CharInv c) := by
  unfold CharInv
  infer_instance

/-- C10: for a character satisfying the HP invariant and a nonnegative
amount, apply_damage (with any con-save argument) and heal preserve the
invariant; and the nonnegativity precondition is required, since neither
operation validates its argument: a negative amount lets heal drive
current HP below zero and lets apply_damage push it above max HP. -/
theorem hp_invariant_spec (c : Character) (amount : Int) (con : Option Int)
    (hinv : CharInv c) (hamt : 0 ≤ amount) :
    (CharInv (c.apply_damage amount con).1 ∧ CharInv (c.heal amount)) ∧
    (∃ c' : Character, ∃ a : Int, CharInv c' ∧ a < 0 ∧ ¬ CharInv (c'.heal a)) ∧
    (∃ c' : Character, ∃ a : Int, CharInv c' ∧ a < 0 ∧
      ¬ CharInv (c'.apply_damage a none).1) := by
  obtain ⟨h1, h2, h3⟩ := hinv
  refine ⟨⟨?_, ?_⟩, ?_, ?_⟩
  · unfold Character.apply_damage CharInv
    dsimp only
    refine ⟨?_, ?_, ?_⟩
    · omega
    · split <;> omega
    · split <;> omega
  · unfold Character.heal CharInv
    dsimp only
    refine ⟨?_, ?_, h3⟩ <;> omega
  · exact ⟨{ name := "w", char_id := "w", current_hp := 2, max_hp := 10 }, -5,
      by decide, by decide, by decide⟩
  · exact ⟨{ name := "w", char_id := "w", current_hp := 10, max_hp := 10 }, -5,
      by decide, by decide, by decide⟩

/-- C10 witness: a fresh default character taking 3 damage and healing
3. -/
theorem hp_invariant_spec_witness :
    CharInv { name := "w", char_id := "w" } ∧ (0 : Int) ≤ 3 ∧
    (CharInv (({ name := "w", char_id := "w" } : Character).apply_damage 3 none).1 ∧
      CharInv (({ name := "w", char_id := "w" } : Character).heal 3)) :=
  ⟨by decide, by decide,
    (hp_invariant_spec { name := "w", char_id := "w" } 3 none (by decide) (by decide)).1⟩

/- ------------------------------------------------------------------ -/
/- C9: try_level_up.                                                   -/
/- ------------------------------------------------------------------ -/

theorem levelScan_nil (xp acc : Int) : levelScan xp [] acc = acc := rfl

theorem levelScan_cons (xp l acc : Int) (ls : List Int) :
    levelScan xp (l :: ls) acc =
      if xpThreshold l ≤ xp then levelScan xp ls l else acc := rfl

theorem xp_mono_nat :
    ∀ b : Nat, b < 20 → ∀ a : Nat, a < 20 → a ≤ b →
      XP_LEVELS.getD a 0 ≤ XP_LEVELS.getD b 0 := by decide

theorem xpThreshold_mono {i j : Int} (_h1 : 1 ≤ i) (h2 : i ≤ j) (h3 : j ≤ 20) :
    xpThreshold i ≤ xpThreshold j := by
  unfold xpThreshold
  apply xp_mono_nat (j - 1).toNat (by omega) (i - 1).toNat (by omega) (by omega)

theorem pyRange_nil {a b : Int} (h : b ≤ a) : pyRange a b = [] := by
  unfold pyRange
  rw [show (b - a).toNat = 0 by omega]
  rfl

theorem pyRange_cons {a b : Int} (h : a < b) : pyRange a b = a :: pyRange (a + 1) b := by
  unfold pyRange
  rw [show (b - a).toNat = (b - (a + 1)).toNat + 1 by omega]
  rw [List.range_succ_eq_map, List.map_cons, List.map_map]
  congr 1
  · simp
  · apply List.map_congr_left
    intro i _
    simp only [Function.comp_apply]
    push_cast
    ring

/-- The scan of try_level_up from candidate a with best-so-far acc:
either it never moves (the first candidate is out of range or unmet), or
it stops at a level r whose threshold is met and whose successor is out
of range or unmet. -/
theorem levelScan_main_fuel (xp : Int) (fuel : Nat) :
    ∀ (a acc : Int), (21 - a).toNat ≤ fuel → acc < a →
      (levelScan xp (pyRange a 21) acc = acc ∧ (21 ≤ a ∨ xp < xpThreshold a)) ∨
      (∃ r, levelScan xp (pyRange a 21) acc = r ∧ a ≤ r ∧ r ≤ 20 ∧
        xpThreshold r ≤ xp ∧ (r = 20 ∨ xp < xpThreshold (r + 1))) := by
  induction fuel with
  | zero =>
    intro a acc hf _
    rw [pyRange_nil (by omega), levelScan_nil]
    exact Or.inl ⟨rfl, Or.inl (by omega)⟩
  | succ f ih =>
    intro a acc hf hacc
    by_cases hend : 21 ≤ a
    · rw [pyRange_nil (by omega), levelScan_nil]
      exact Or.inl ⟨rfl, Or.inl hend⟩
    · rw [pyRange_cons (by omega), levelScan_cons]
      by_cases hth : xpThreshold a ≤ xp
      · rw [if_pos hth]
        rcases ih (a + 1) a (by omega) (by omega) with ⟨heq, hside⟩ | ⟨r, heq, hr1, hr2, hr3, hr4⟩
        · refine Or.inr ⟨a, heq, le_refl a, by omega, hth, ?_⟩
          rcases hside with hs | hs
          · exact Or.inl (by omega)
          · exact Or.inr hs
        · exact Or.inr ⟨r, heq, by omega, hr2, hr3, hr4⟩
      · rw [if_neg hth]
        exact Or.inl ⟨rfl, Or.inr (by omega)⟩

/-- The conclusion of the C9 claim in the case a higher threshold is
met: try_level_up reports true, the level lands on the highest met
threshold level up to 20, max HP grows by (ceil(hit_die/2) + 1) per
level gained, and nothing else changes. -/
def TryLevelUpGains (c : Character) : Prop :=
  c.try_level_up.1 = true ∧
  c.level < c.try_level_up.2.level ∧ c.try_level_up.2.level ≤ 20 ∧
  xpThreshold c.try_level_up.2.level ≤ c.xp ∧
  (∀ l : Int, c.level < l → l ≤ 20 → xpThreshold l ≤ c.xp →
    l ≤ c.try_level_up.2.level) ∧
  c.try_level_up.2.max_hp =
    c.max_hp + (ceilHalf c.hit_die + 1) * (c.try_level_up.2.level - c.level) ∧
  c.try_level_up.2 = { c with
    level := c.try_level_up.2.level,
    max_hp := c.try_level_up.2.max_hp }

/-- C9: try_level_up advances to the highest level (up to 20) whose
cumulative XP threshold (level 1 = 0 XP) is met, adding
(ceil(hit_die/2) + 1) max HP per level gained, and returns true; when no
higher threshold is met it returns false and changes nothing.  The
character level is at least 1, as the data model requires. -/
theorem try_level_up_spec (c : Character) (hlvl : 1 ≤ c.level) :
    ((∃ l : Int, c.level < l ∧ l ≤ 20 ∧ xpThreshold l ≤ c.xp) →
      TryLevelUpGains c) ∧
    ((¬ ∃ l : Int, c.level < l ∧ l ≤ 20 ∧ xpThreshold l ≤ c.xp) →
      c.try_level_up = (false, c)) := by
  have hmain := levelScan_main_fuel c.xp (21 - (c.level + 1)).toNat (c.level + 1) c.level
    le_rfl (by omega)
  constructor
  · intro ⟨l, hl1, hl2, hl3⟩
    rcases hmain with ⟨heq, hside⟩ | ⟨r, heq, hr1, hr2, hr3, hr4⟩
    · exfalso
      rcases hside with hs | hs
      · omega
      · have := xpThreshold_mono (i := c.level + 1) (j := l) (by omega) (by omega) hl2
        omega
    · have htr : c.try_level_up = (true, { c with
          level := r,
          max_hp := c.max_hp + (ceilHalf c.hit_die + 1) * (r - c.level) }) := by
        unfold Character.try_level_up
        rw [heq, if_pos (by omega)]
      unfold TryLevelUpGains
      rw [htr]
      refine ⟨rfl, by dsimp only; omega, by dsimp only; omega, by dsimp only; exact hr3,
        ?_, by dsimp only, by dsimp only⟩
      intro l' hl'1 hl'2 hl'3
      dsimp only
      by_contra hgt
      have hrl : r + 1 ≤ l' := by omega
      rcases hr4 with hs | hs
      · omega
      · have := xpThreshold_mono (i := r + 1) (j := l') (by omega) hrl hl'2
        omega
  · intro hno
    rcases hmain with ⟨heq, _⟩ | ⟨r, heq, hr1, hr2, hr3, _⟩
    · unfold Character.try_level_up
      rw [heq, if_neg (by omega)]
    · exfalso
      exact hno ⟨r, by omega, hr2, hr3⟩

/-- A level-1 character holding 900 XP, enough for level 3. -/
def lvlChar : Character where
  name := "w"
  char_id := "w"
  xp := 900

/-- C9 witness: the 900-XP character levels up. -/
theorem try_level_up_spec_witness :
    1 ≤ lvlChar.level ∧
    (∃ l : Int, lvlChar.level < l ∧ l ≤ 20 ∧ xpThreshold l ≤ lvlChar.xp) ∧
    TryLevelUpGains lvlChar :=
  ⟨by decide, ⟨3, by decide, by decide, by decide⟩,
    (try_level_up_spec lvlChar (by decide)).1 ⟨3, by decide, by decide, by decide⟩⟩

/- ------------------------------------------------------------------ -/
/- C4: next_turn.                                                      -/
/- ------------------------------------------------------------------ -/

/-- Iterated next_turn, keeping only the state. -/
def nextTurnIter : Nat → CombatEncounter → Option CombatEncounter
  | 0, e => some e
  | k + 1, e =>
    match e.next_turn with
    | none => none
    | some (e', _) => nextTurnIter k e'

/-- Iterated condition tick over a roster. -/
def tickIter : Nat → List Combatant → List Combatant
  | 0, l => l
  | w + 1, l => tickIter w (l.map tickCombatant)

theorem nextTurnIter_succ (k : Nat) (e : CombatEncounter) :
    nextTurnIter (k + 1) e =
      match e.next_turn with
      | none => none
      | some (e', _) => nextTurnIter k e' := rfl

theorem nextTurnIter_step {k : Nat} {e e' : CombatEncounter} {cb : Combatant}
    (h : e.next_turn = some (e', cb)) :
    nextTurnIter (k + 1) e = nextTurnIter k e' := by
  rw [nextTurnIter_succ, h]

theorem next_turn_wrap {e : CombatEncounter} (hne : e.combatants ≠ [])
    (hwrap : (e.turn_index + 1) % e.combatants.length = 0) :
    e.next_turn = some ({ e with
        turn_index := (e.turn_index + 1) % e.combatants.length,
        round := e.round + 1,
        combatants := e.combatants.map tickCombatant },
      (e.combatants.map tickCombatant).getD
        ((e.turn_index + 1) % e.combatants.length) dummyCombatant) := by
  unfold CombatEncounter.next_turn
  rw [if_neg hne, if_pos hwrap]

theorem next_turn_nowrap {e : CombatEncounter} (hne : e.combatants ≠ [])
    (hwrap : (e.turn_index + 1) % e.combatants.length ≠ 0) :
    e.next_turn = some ({ e with turn_index := (e.turn_index + 1) % e.combatants.length },
      e.combatants.getD ((e.turn_index + 1) % e.combatants.length) dummyCombatant) := by
  unfold CombatEncounter.next_turn
  rw [if_neg hne, if_neg hwrap]

/-- Closed form for iterated next_turn from an in-bounds cursor: after k
steps the cursor is (i + k) mod n, the round grew by the number of wraps
(i + k) / n, and the conditions ticked that many times. -/
theorem nextTurnIter_formula (k : Nat) :
    ∀ e : CombatEncounter, e.combatants ≠ [] →
      e.turn_index < e.combatants.length →
      nextTurnIter k e = some { e with
        turn_index := (e.turn_index + k) % e.combatants.length,
        round := e.round + (((e.turn_index + k) / e.combatants.length : Nat) : Int),
        combatants := tickIter ((e.turn_index + k) / e.combatants.length) e.combatants } := by
  induction k with
  | zero =>
    intro e hne hidx
    show some e = _
    rw [Nat.add_zero, Nat.mod_eq_of_lt hidx, Nat.div_eq_of_lt hidx]
    show some e = some { e with
      turn_index := e.turn_index,
      round := e.round + ((0 : Nat) : Int),
      combatants := tickIter 0 e.combatants }
    rw [show ((0 : Nat) : Int) = 0 from rfl, add_zero]
    rfl
  | succ k ih =>
    intro e hne hidx
    have hn : 0 < e.combatants.length := List.length_pos.mpr hne
    by_cases hwrap : (e.turn_index + 1) % e.combatants.length = 0
    · have hfull : e.turn_index + 1 = e.combatants.length := by
        rcases Nat.dvd_of_mod_eq_zero hwrap with ⟨c, hc⟩
        rcases Nat.eq_zero_or_pos c with rfl | hcpos
        · omega
        · have h1 : e.combatants.length * 1 ≤ e.combatants.length * c :=
            Nat.mul_le_mul_left _ hcpos
          omega
      rw [nextTurnIter_step (next_turn_wrap hne hwrap)]
      rw [ih _ (by simpa using hne)
        (by simp only [List.length_map]; exact Nat.mod_lt _ hn)]
      simp only [List.length_map]
      rw [hwrap, Nat.zero_add]
      have harith1 : (e.turn_index + (k + 1)) % e.combatants.length =
          k % e.combatants.length := by
        rw [show e.turn_index + (k + 1) = k + e.combatants.length by omega]
        exact Nat.add_mod_right k e.combatants.length
      have harith2 : (e.turn_index + (k + 1)) / e.combatants.length =
          k / e.combatants.length + 1 := by
        rw [show e.turn_index + (k + 1) = k + e.combatants.length by omega]
        exact Nat.add_div_right k hn
      rw [harith1, harith2]
      have hround : e.round + 1 + ((k / e.combatants.length : Nat) : Int) =
          e.round + ((k / e.combatants.length + 1 : Nat) : Int) := by
        push_cast
        ring
      rw [show tickIter (k / e.combatants.length) (e.combatants.map tickCombatant) =
        tickIter (k / e.combatants.length + 1) e.combatants from rfl]
      rw [hround]
    · have hlt : e.turn_index + 1 < e.combatants.length := by
        rcases Nat.lt_or_ge (e.turn_index + 1) e.combatants.length with h | h
        · exact h
        · exfalso
          have heq : e.turn_index + 1 = e.combatants.length := by omega
          rw [heq] at hwrap
          exact hwrap (Nat.mod_self _)
      have hmod : (e.turn_index + 1) % e.combatants.length = e.turn_index + 1 :=
        Nat.mod_eq_of_lt hlt
      rw [nextTurnIter_step (next_turn_nowrap hne hwrap)]
      rw [hmod]
      rw [ih { e with turn_index := e.turn_index + 1 } hne hlt]
      rw [show e.turn_index + 1 + k = e.turn_index + (k + 1) by omega]

/-- The C4 property of one encounter state: a single next_turn call
advances the cursor by one modulo the roster size, incrementing the
round and ticking every combatant's conditions exactly when the cursor
wraps to zero, and returns the new current combatant; N calls (N the
roster size) come back to the same combatant with the round incremented
exactly once and every condition ticked exactly once; and next_turn on
an empty roster raises. -/
def NextTurnSpec (e : CombatEncounter) : Prop :=
  (∃ e' cb, e.next_turn = some (e', cb) ∧
    e'.turn_index = (e.turn_index + 1) % e.combatants.length ∧
    ((e.turn_index + 1) % e.combatants.length = 0 →
      e'.round = e.round + 1 ∧ e'.combatants = e.combatants.map tickCombatant) ∧
    ((e.turn_index + 1) % e.combatants.length ≠ 0 →
      e'.round = e.round ∧ e'.combatants = e.combatants) ∧
    e'.name = e.name ∧
    cb = e'.combatants.getD e'.turn_index dummyCombatant) ∧
  (nextTurnIter e.combatants.length e = some { e with
    round := e.round + 1,
    combatants := e.combatants.map tickCombatant }) ∧
  (∀ e0 : CombatEncounter, e0.combatants = [] → e0.next_turn = none)

/-- C4: next_turn advances the cursor modulo the roster size, wrapping
increments the round and ticks conditions exactly once per cycle, and an
empty roster raises. -/
theorem next_turn_spec (e : CombatEncounter) (hne : e.combatants ≠ [])
    (hidx : e.turn_index < e.combatants.length) : NextTurnSpec e := by
  have hn : 0 < e.combatants.length := List.length_pos.mpr hne
  refine ⟨?_, ?_, ?_⟩
  · by_cases hwrap : (e.turn_index + 1) % e.combatants.length = 0
    · refine ⟨_, _, next_turn_wrap hne hwrap, rfl, ?_, ?_, rfl, rfl⟩
      · intro _
        exact ⟨rfl, rfl⟩
      · intro hc
        exact absurd hwrap hc
    · refine ⟨_, _, next_turn_nowrap hne hwrap, rfl, ?_, ?_, rfl, rfl⟩
      · intro hc
        exact absurd hc hwrap
      · intro _
        exact ⟨rfl, rfl⟩
  · rw [nextTurnIter_formula e.combatants.length e hne hidx]
    rw [Nat.add_mod_right, Nat.mod_eq_of_lt hidx,
      Nat.add_div_right _ hn, Nat.div_eq_of_lt hidx]
    rfl
  · intro e0 h0
    unfold CombatEncounter.next_turn
    rw [if_pos h0]

/-- A started two-combatant encounter with a timed condition, for the
next_turn witness. -/
def turnEnc : CombatEncounter where
  combatants :=
    [{ character := { name := "x", char_id := "x", conditions := [("stunned", 2)] } },
     { character := { name := "y", char_id := "y" } }]
  round := 1
  turn_index := 0

/-- C4 witness: the two-combatant encounter satisfies the next_turn
property. -/
theorem next_turn_spec_witness :
    turnEnc.combatants ≠ [] ∧ turnEnc.turn_index < turnEnc.combatants.length ∧
    NextTurnSpec turnEnc :=
  ⟨by decide, by decide, next_turn_spec turnEnc (by decide) (by decide)⟩

/- ------------------------------------------------------------------ -/
/- C5: the turn-cursor invariant.                                      -/
/- ------------------------------------------------------------------ -/

/-- The roster operations named by the claim. -/
inductive EncOp where
  | addC (cb : Combatant)
  | removeC (cid : String)
  | nextT
  | prevT
deriving DecidableEq

/-- Whether an operation is a removal. -/
def EncOp.isRemove : EncOp → Bool
  | .removeC _ => true
  | _ => false

/-- One roster operation applied to an encounter.  next_turn and
previous_turn raise before mutating anything on an empty roster, so the
raising case keeps the state. -/
def applyOp (e : CombatEncounter) : EncOp → CombatEncounter
  | .addC cb => e.add_combatant cb
  | .removeC cid => e.remove_combatant cid
  | .nextT =>
    match e.next_turn with
    | some p => p.1
    | none => e
  | .prevT =>
    match e.previous_turn with
    | some p => p.1
    | none => e

/-- A sequence of roster operations applied left to right. -/
def runOps (e : CombatEncounter) (ops : List EncOp) : CombatEncounter :=
  ops.foldl applyOp e

/-- The claimed invariant: a nonempty roster with an in-bounds cursor. -/
def EncInv (e : CombatEncounter) : Prop :=
  e.combatants ≠ [] ∧ e.turn_index < e.combatants.length

instance (e : CombatEncounter) : Decidable (EncInv e) := by
  unfold EncInv
  infer_instance

/-- A started single-combatant encounter. -/
def soloEnc : CombatEncounter where
  combatants := [{ character := { name := "t", char_id := "t" } }]
  round := 1
  turn_index := 0

/-- C5 counterexample: removing the only combatant from a started
encounter empties the roster, so the cursor is no longer a valid index
into a non-empty sequence; the claim as stated fails for sequences that
include remove_combatant. -/
theorem turn_cursor_claim_counterexample :
    (1 : Int) ≤ soloEnc.round ∧ EncInv soloEnc ∧
    ¬ EncInv (runOps soloEnc [EncOp.removeC ("t")]) :=
  ⟨by decide, by decide, by decide⟩

theorem previous_turn_eq {e : CombatEncounter} (hne : e.combatants ≠ []) :
    e.previous_turn = some ({ e with
        turn_index := (e.turn_index + (e.combatants.length - 1)) % e.combatants.length },
      e.combatants.getD ((e.turn_index + (e.combatants.length - 1)) % e.combatants.length)
        dummyCombatant) := by
  unfold CombatEncounter.previous_turn
  rw [if_neg hne]

theorem applyOp_preserves_inv (e : CombatEncounter) (op : EncOp) (h : EncInv e)
    (hsafe : op.isRemove = false) : EncInv (applyOp e op) := by
  obtain ⟨h1, h2⟩ := h
  have hn : 0 < e.combatants.length := List.length_pos.mpr h1
  cases op with
  | addC cb =>
    unfold applyOp CombatEncounter.add_combatant EncInv
    constructor
    · simp
    · simp only [List.length_append, List.length_singleton]
      omega
  | removeC cid => simp [EncOp.isRemove] at hsafe
  | nextT =>
    unfold applyOp
    by_cases hwrap : (e.turn_index + 1) % e.combatants.length = 0
    · rw [next_turn_wrap h1 hwrap]
      refine ⟨by simpa using h1, ?_⟩
      simp only [List.length_map]
      exact Nat.mod_lt _ hn
    · rw [next_turn_nowrap h1 hwrap]
      exact ⟨h1, Nat.mod_lt _ hn⟩
  | prevT =>
    unfold applyOp
    rw [previous_turn_eq h1]
    exact ⟨h1, Nat.mod_lt _ hn⟩

/-- C5 (amended): once an encounter is started with a nonempty roster
(so the invariant holds), any sequence of add_combatant, next_turn and
previous_turn operations keeps the turn cursor a valid index into a
non-empty roster; remove_combatant can break the invariant, which
current_combatant later repairs by resetting the cursor. -/
theorem turn_cursor_invariant_amended (e : CombatEncounter) (hinv : EncInv e)
    (ops : List EncOp) (hsafe : ∀ op ∈ ops, op.isRemove = false) :
    EncInv (runOps e ops) := by
  induction ops generalizing e with
  | nil => exact hinv
  | cons op rest ih =>
    unfold runOps
    rw [List.foldl_cons]
    exact ih (applyOp e op)
      (applyOp_preserves_inv e op hinv (hsafe op (by simp)))
      (fun o ho => hsafe o (by simp [ho]))

/-- C5 witness: a next, previous and add sequence on the started
single-combatant encounter. -/
theorem turn_cursor_invariant_amended_witness :
    EncInv soloEnc ∧
    (∀ op ∈ [EncOp.nextT, EncOp.prevT, EncOp.addC dummyCombatant], op.isRemove = false) ∧
    EncInv (runOps soloEnc [EncOp.nextT, EncOp.prevT, EncOp.addC dummyCombatant]) :=
  ⟨by decide, by decide,
    turn_cursor_invariant_amended soloEnc (by decide) _ (by decide)⟩

/- ------------------------------------------------------------------ -/
/- C7: perform_attack.                                                 -/
/- ------------------------------------------------------------------ -/

theorem perform_attack_found {e : CombatEncounter} {aid did : String}
    {atk dfd : Combatant} (roll damage : Int) (crit : Bool)
    (ha : findCombatant e.combatants aid = some atk)
    (hd : findCombatant e.combatants did = some dfd) :
    e.perform_attack aid did roll damage crit =
      (if roll ≥ dfd.character.armor_class then
        Except.ok (performAttackHit e did dfd damage crit)
      else
        Except.ok ({ hit := false, applied_damage := 0,
                     defender_before_hp := dfd.character.current_hp }, e)) := by
  unfold CombatEncounter.perform_attack
  rw [ha, hd]

/-- The C7 property of one attack between two present combatants:
the attack hits exactly when the roll total reaches the defender's armor
class; a hit applies the damage (doubled on a crit) through
Character.apply_damage and clears the defender's alive flag exactly when
the resulting HP is nonpositive, touching no other combatant and no
other encounter field; a miss reports zero applied damage and leaves the
whole encounter state unchanged. -/
def AttackSpec (e : CombatEncounter) (aid did : String) (roll damage : Int)
    (crit : Bool) (dfd : Combatant) : Prop :=
  ∃ res e', e.perform_attack aid did roll damage crit = Except.ok (res, e') ∧
    (res.hit = true ↔ dfd.character.armor_class ≤ roll) ∧
    res.defender_before_hp = dfd.character.current_hp ∧
    (res.hit = false →
      res.applied_damage = 0 ∧ e' = e ∧ res.after = none ∧ res.defender_alive = none) ∧
    (res.hit = true →
      res.applied_damage = damage * (if crit then 2 else 1) ∧
      res.after = some (dfd.character.apply_damage res.applied_damage none).2 ∧
      e'.combatants = updateCombatant e.combatants did (fun c => { c with
        character := (dfd.character.apply_damage res.applied_damage none).1,
        alive := if (dfd.character.apply_damage res.applied_damage none).1.current_hp ≤ 0
          then false else c.alive }) ∧
      e'.round = e.round ∧ e'.turn_index = e.turn_index ∧ e'.name = e.name)

/-- C7: perform_attack between two present combatants hits exactly on
attack roll at least the armor class, applies doubled-on-crit damage via
the Character damage operation with the alive flag clearing exactly on
nonpositive HP, and a miss changes nothing. -/
theorem perform_attack_spec (e : CombatEncounter) (aid did : String)
    (roll damage : Int) (crit : Bool) (atk dfd : Combatant)
    (ha : findCombatant e.combatants aid = some atk)
    (hd : findCombatant e.combatants did = some dfd) :
    AttackSpec e aid did roll damage crit dfd := by
  unfold AttackSpec
  rw [perform_attack_found roll damage crit ha hd]
  by_cases hhit : roll ≥ dfd.character.armor_class
  · rw [if_pos hhit]
    refine ⟨_, _, rfl, ?_, rfl, ?_, ?_⟩
    · simp only [performAttackHit]
      exact iff_of_true trivial hhit
    · intro hfalse
      simp only [performAttackHit] at hfalse
      exact absurd hfalse (by simp)
    · intro _
      refine ⟨rfl, rfl, rfl, rfl, rfl, rfl⟩
  · rw [if_neg hhit]
    refine ⟨_, _, rfl, ?_, rfl, ?_, ?_⟩
    · constructor
      · intro h
        exact absurd h (by simp)
      · intro h
        exact absurd h hhit
    · intro _
      exact ⟨rfl, rfl, rfl, rfl⟩
    · intro htrue
      exact absurd htrue (by simp)

/-- The attacker and defender of the attack witness; the defender has
armor class 15 and 10 HP. -/
def atkAttacker : Combatant :=
  { character := { name := "a", char_id := "a" } }

/-- Defender combatant of the attack witness. -/
def atkDefender : Combatant :=
  { character := { name := "dd", char_id := "dd", armor_class := 15, current_hp := 10 } }

/-- Encounter of the attack witness. -/
def atkEnc : CombatEncounter where
  combatants := [atkAttacker, atkDefender]
  round := 1

/-- C7 witness: the spec's example, an attack roll of 15 against armor
class 15 (a hit). -/
theorem perform_attack_spec_witness :
    findCombatant atkEnc.combatants ("a") = some atkAttacker ∧
    findCombatant atkEnc.combatants ("dd") = some atkDefender ∧
    AttackSpec atkEnc ("a") ("dd") 15 4 false atkDefender :=
  ⟨by decide, by decide,
    perform_attack_spec atkEnc ("a") ("dd") 15 4 false atkAttacker atkDefender
      (by decide) (by decide)⟩

/- ------------------------------------------------------------------ -/
/- C2: cast_spell with an unavailable slot.                            -/
/- ------------------------------------------------------------------ -/

theorem cast_spell_found {e : CombatEncounter} {caster_id spell_name : String}
    {slot_level : Option Int} {target_ids : List String} {caster_ability : String}
    {lib : String → Option Spell} {rngs : List TargetRng} {caster : Combatant}
    (hc : findCombatant e.combatants caster_id = some caster) :
    e.cast_spell caster_id spell_name slot_level target_ids caster_ability lib rngs =
      match resolveSpell caster lib spell_name with
      | none => Except.error ("Spell not found for caster or API/library")
      | some sp =>
        castWithSpell e caster_id caster sp slot_level target_ids caster_ability rngs := by
  unfold CombatEncounter.cast_spell
  rw [hc]

theorem cast_spell_resolved {e : CombatEncounter} {caster_id spell_name : String}
    {slot_level : Option Int} {target_ids : List String} {caster_ability : String}
    {lib : String → Option Spell} {rngs : List TargetRng} {caster : Combatant} {sp : Spell}
    (hc : findCombatant e.combatants caster_id = some caster)
    (hsp : resolveSpell caster lib spell_name = some sp) :
    e.cast_spell caster_id spell_name slot_level target_ids caster_ability lib rngs =
      castWithSpell e caster_id caster sp slot_level target_ids caster_ability rngs := by
  rw [cast_spell_found hc, hsp]

/-- C2: casting a leveled spell whose chosen slot level (max of the
requested level and the spell level when a level at least the spell's
was requested, else the spell's own level) has no available slot returns
the error dict as an ordinary value, with the encounter state — every
combatant's HP, temp HP, concentration and spell slots — exactly as
before: use_spell_slot returns False without mutating, and cast_spell
then returns before touching anything. -/
theorem cast_spell_unavailable_slot_spec (e : CombatEncounter)
    (caster_id spell_name : String) (slot_level : Option Int)
    (target_ids : List String) (caster_ability : String)
    (lib : String → Option Spell) (rngs : List TargetRng)
    (caster : Combatant) (sp : Spell)
    (hc : findCombatant e.combatants caster_id = some caster)
    (hsp : resolveSpell caster lib spell_name = some sp)
    (hlvl : 0 < sp.level)
    (hslot : caster.character.use_spell_slot (chosenSlotLevel sp.level slot_level) = none) :
    e.cast_spell caster_id spell_name slot_level target_ids caster_ability lib rngs =
      Except.ok (CastResult.error
        (String.mk (("No spell slot level ").data ++
          intRepr (chosenSlotLevel sp.level slot_level) ++ (" available").data)), e) ∧
    chosenSlotLevel sp.level slot_level =
      (match slot_level with
       | some l => if sp.level ≤ l then max l sp.level else sp.level
       | none => sp.level) := by
  constructor
  · rw [cast_spell_resolved hc hsp]
    unfold castWithSpell
    rw [if_pos hlvl, hslot]
  · cases slot_level with
    | none => rfl
    | some l =>
      show (if l ≠ 0 ∧ l ≥ sp.level then l else sp.level) =
        if sp.level ≤ l then max l sp.level else sp.level
      by_cases hge : sp.level ≤ l
      · rw [if_pos ⟨by omega, hge⟩, if_pos hge]
        exact (max_eq_left hge).symm
      · rw [if_neg (fun hcontra => hge hcontra.2), if_neg hge]

/-- The level-one spell of the slot witness. -/
def slotSpell : Spell := { name := "bolt", level := 1, damage_expr := some ("1d4") }

/-- A caster knowing that spell with zero remaining level-1 slots. -/
def slotCaster : Combatant :=
  { character := { name := "c2", char_id := "c2", spells := [slotSpell],
                   spell_slots := [(1, ⟨0, 2⟩)] } }

/-- Encounter of the slot witness. -/
def slotEnc : CombatEncounter where
  combatants := [slotCaster]
  round := 1

/-- C2 witness: the caster with zero remaining level-1 slots attempting
the level-1 spell. -/
theorem cast_spell_unavailable_slot_witness :
    findCombatant slotEnc.combatants ("c2") = some slotCaster ∧
    resolveSpell slotCaster (fun _ => none) ("bolt") = some slotSpell ∧
    0 < slotSpell.level ∧
    slotCaster.character.use_spell_slot (chosenSlotLevel slotSpell.level none) = none ∧
    (slotEnc.cast_spell ("c2") ("bolt") none [] ("INT") (fun _ => none) [] =
      Except.ok (CastResult.error
        (String.mk (("No spell slot level ").data ++
          intRepr (chosenSlotLevel slotSpell.level none) ++ (" available").data)), slotEnc) ∧
     chosenSlotLevel slotSpell.level none =
      (match (none : Option Int) with
       | some l => if slotSpell.level ≤ l then max l slotSpell.level else slotSpell.level
       | none => slotSpell.level)) :=
  ⟨by decide, by decide, by decide, by decide,
    cast_spell_unavailable_slot_spec slotEnc ("c2") ("bolt") none [] ("INT")
      (fun _ => none) [] slotCaster slotSpell (by decide) (by decide) (by decide) (by decide)⟩

/- ------------------------------------------------------------------ -/
/- C1: save success on a non-half spell does not negate damage.        -/
/- ------------------------------------------------------------------ -/

/-- A cantrip with a dexterity save, no half-on-save flag, and a 1d6
damage expression. -/
def zapSpell : Spell :=
  { name := "zap", level := 0, save := some ("DEX"), save_half := false,
    damage_expr := some ("1d6") }

/-- A caster knowing the cantrip (save DC is 8 + 2 + 0 = 10). -/
def zapCaster : Combatant :=
  { character := { name := "cst", char_id := "cst", spells := [zapSpell] } }

/-- A target with no save bonus at 10 HP. -/
def zapTarget : Combatant :=
  { character := { name := "tgt", char_id := "tgt", current_hp := 10 } }

/-- Encounter of the failing input. -/
def zapEnc : CombatEncounter where
  combatants := [zapCaster, zapTarget]
  round := 1

/-- C1 (code bug): a spell with a saving throw, not half-on-save, and a
damage expression; the target rolls a natural 20, its save total 20
meets the DC of 10, and the result records save_succeeded as true — yet
the full rolled damage of 4 is applied and the target drops from 10 to
6 HP.  The claim (and the spec, and the reported save_succeeded flag)
say damage should be fully negated; the boolean on line 653
(not sp.save or not save_succeeded or not sp.save_half) is true whenever
save_half is false, so the save result never matters there. -/
theorem cast_spell_save_negation_bug :
    zapSpell.hasSave = true ∧ zapSpell.save_half = false ∧ zapSpell.hasDamage = true ∧
    zapEnc.cast_spell ("cst") ("zap") none [("tgt")] ("INT") (fun _ => none)
        [⟨20, fun _ => 4⟩] =
      Except.ok (CastResult.success ("zap") ("cst")
        [(("tgt"), TargetOutcome.res ("tgt") true (some 20) (some true) ("rolls=[4]") 4
          ⟨6, 0, false⟩)],
        { zapEnc with combatants := [zapCaster,
          { zapTarget with character := { zapTarget.character with current_hp := 6 } }] }) :=
  ⟨rfl, rfl, rfl, by rfl⟩

/- ------------------------------------------------------------------ -/
/- C6: snapshot round trip.                                            -/
/- ------------------------------------------------------------------ -/

/-- A character is free of the live-object concentration form when its
concentration, if any, carries the spell as the plain dict form (the
form from_dict produces).  A character that has just called
start_concentration violates this: there the spell is the dataclass
object itself. -/
def Character.concObjFree (c : Character) : Bool :=
  match c.concentration with
  | none => true
  | some cc => !cc.spell.isObj

/-- optMap inverts a map whose elements f recovers pointwise. -/
theorem optMap_map_some {α β : Type} (f : β → Option α) (g : α → β)
    (l : List α) (h : ∀ x ∈ l, f (g x) = some x) :
    optMap f (l.map g) = some l := by
  induction l with
  | nil => rfl
  | cons x xs ih =>
    rw [List.map_cons]
    unfold optMap
    rw [h x (List.mem_cons_self x xs),
        ih (fun y hy => h y (List.mem_cons_of_mem x hy))]

/-- from_dict computation step: once the slot keys parse, the rebuilt
character is fromFields. -/
theorem from_dict_some (r : CharacterRecord) (slots : List (Int × Slot))
    (h : optMap (fun p : String × Slot =>
      (pyInt p.1.data).map (fun k => (k, p.2))) r.spell_slots = some slots) :
    Character.from_dict r = some (Character.fromFields r slots) := by
  unfold Character.from_dict
  rw [h]

/-- The serialized concentration comes back as the dict form; on a
concObjFree character that is the original value. -/
theorem conc_round_trip (c : Character) (h : c.concObjFree = true) :
    ((Character.to_dict c).concentration).map
      (fun cc => (⟨SpellVal.dict cc.spell, cc.save_dc, cc.started_at_round⟩ : Concentration))
      = c.concentration := by
  show (c.concentration.map (fun cc =>
      (⟨cc.spell.flatten, cc.save_dc, cc.started_at_round⟩ : ConcentrationRecord))).map
    (fun cc => (⟨SpellVal.dict cc.spell, cc.save_dc, cc.started_at_round⟩ : Concentration))
    = c.concentration
  unfold Character.concObjFree at h
  cases hcc : c.concentration with
  | none => rfl
  | some cc =>
    rw [hcc] at h
    have h2 : (!cc.spell.isObj) = true := h
    obtain ⟨spv, dc, rd⟩ := cc
    cases spv with
    | obj s => simp [SpellVal.isObj] at h2
    | dict s => rfl

/-- Character round trip under concObjFree. -/
theorem char_round_trip (c : Character) (h : c.concObjFree = true) :
    Character.from_dict c.to_dict = some c := by
  have hs : optMap (fun p : String × Slot =>
      (pyInt p.1.data).map (fun k => (k, p.2)))
      (Character.to_dict c).spell_slots = some c.spell_slots := by
    show optMap (fun p : String × Slot =>
      (pyInt p.1.data).map (fun k => (k, p.2)))
      (c.spell_slots.map (fun p => (intStr p.1, p.2))) = some c.spell_slots
    refine optMap_map_some _ _ _ (fun p _ => ?_)
    show (pyInt (intRepr p.1)).map (fun k => (k, p.2)) = some p
    rw [pyInt_intRepr]
    rfl
  rw [from_dict_some c.to_dict c.spell_slots hs]
  unfold Character.fromFields
  rw [conc_round_trip c h]
  rfl

/-- Combatant round trip. -/
theorem combatant_round_trip (cb : Combatant) (h : cb.character.concObjFree = true) :
    Combatant.from_dict cb.to_dict = some cb := by
  show (match Character.from_dict cb.character.to_dict with
    | none => none
    | some ch => some (⟨ch, cb.initiative, cb.alive, cb.is_npc, cb.token_id⟩ : Combatant))
    = some cb
  rw [char_round_trip cb.character h]

/-- Encounter round trip: name, round and turn cursor survive verbatim,
the roster through the combatant round trip. -/
theorem encounter_round_trip (e : CombatEncounter)
    (h : ∀ cb ∈ e.combatants, cb.character.concObjFree = true) :
    CombatEncounter.from_dict e.to_dict = some e := by
  show (match optMap Combatant.from_dict (e.combatants.map Combatant.to_dict) with
    | none => none
    | some cs => some (⟨e.name, cs, e.round, e.turn_index⟩ : CombatEncounter))
    = some e
  rw [optMap_map_some Combatant.from_dict Combatant.to_dict e.combatants
    (fun cb hcb => combatant_round_trip cb (h cb hcb))]

/-- Game.loadEnc computation step on a saved snapshot. -/
theorem loadEnc_save (g : Game) (cs : List (String × Character))
    (h : ∀ q ∈ g.encounters, ∀ cb ∈ q.2.combatants, cb.character.concObjFree = true) :
    Game.loadEnc g.save cs = some ⟨g.name, cs, g.encounters, g.party⟩ := by
  have he : optMap (fun p : String × EncounterRecord =>
      (CombatEncounter.from_dict p.2).map (fun e => (p.1, e)))
      (Game.save g).encounters = some g.encounters := by
    show optMap (fun p : String × EncounterRecord =>
      (CombatEncounter.from_dict p.2).map (fun e => (p.1, e)))
      (g.encounters.map (fun p => (p.1, p.2.to_dict))) = some g.encounters
    refine optMap_map_some _ _ _ (fun q hq => ?_)
    show (CombatEncounter.from_dict q.2.to_dict).map (fun e => (q.1, e)) = some q
    rw [encounter_round_trip q.2 (h q hq)]
    rfl
  unfold Game.loadEnc
  rw [he]
  rfl

/-- C6 input: a spell kept under concentration. -/
def c6Spell : Spell := { name := "bless", level := 1, concentration := true }

/-- C6 input: a character with inventory, spells and spell slots who is
concentrating — the concentration holds the live Spell object, exactly
as start_concentration stores it. -/
def c6Char : Character :=
  { name := "cleric", char_id := "cl1",
    inventory := [{ name := "rope", quantity := 2, weight := 10 }],
    spells := [c6Spell],
    spell_slots := [(1, ⟨2, 3⟩)],
    concentration := some ⟨SpellVal.obj c6Spell, 10, 1⟩ }

/-- C6 input: a started encounter containing the concentrating cleric. -/
def c6Enc : CombatEncounter where
  combatants := [{ character := c6Char }]
  round := 1
  turn_index := 0

/-- C6 input: the campaign of the counterexample. -/
def c6Game : Game :=
  { name := "camp", characters := [(("cl1"), c6Char)],
    encounters := [(("e1"), c6Enc)], party := [("cl1")] }

/-- C6 (corrected): the round trip is NOT the identity on every campaign
with a character (with inventory, spells, spell slots) and a started
encounter.  On this campaign the cleric is concentrating, the snapshot
flattens the live Spell object with asdict, and from_dict leaves the
spell as a plain dict instead of rebuilding the dataclass, so the
reloaded campaign differs from the original (Python == on the dataclass
vs the dict is False). -/
theorem save_load_counterexample :
    (c6Game.characters ≠ [] ∧
     (∀ p ∈ c6Game.characters,
       p.2.inventory ≠ [] ∧ p.2.spells ≠ [] ∧ p.2.spell_slots ≠ []) ∧
     c6Game.encounters ≠ [] ∧ (∀ q ∈ c6Game.encounters, 1 ≤ q.2.round)) ∧
    Game.load c6Game.save ≠ some c6Game := by
  refine ⟨⟨by decide, by decide, by decide, by decide⟩, by decide⟩

/-- C6 amended: for every campaign in which no character — neither in
the roster nor inside an encounter — holds its concentration spell as
the live dataclass object, save followed by load reproduces the
campaign exactly: same ids, every character field including the integer
spell-slot level keys, and each encounter round and turn cursor. -/
theorem save_load_round_trip (g : Game)
    (hc : ∀ p ∈ g.characters, p.2.concObjFree = true)
    (he : ∀ q ∈ g.encounters, ∀ cb ∈ q.2.combatants, cb.character.concObjFree = true) :
    Game.load g.save = some g := by
  have hcs : optMap (fun p : String × CharacterRecord =>
      (Character.from_dict p.2).map (fun c => (p.1, c)))
      (Game.save g).characters = some g.characters := by
    show optMap (fun p : String × CharacterRecord =>
      (Character.from_dict p.2).map (fun c => (p.1, c)))
      (g.characters.map (fun p => (p.1, p.2.to_dict))) = some g.characters
    refine optMap_map_some _ _ _ (fun p hp => ?_)
    show (Character.from_dict p.2.to_dict).map (fun c => (p.1, c)) = some p
    rw [char_round_trip p.2 (hc p hp)]
    rfl
  unfold Game.load
  rw [hcs]
  show Game.loadEnc g.save g.characters = some g
  rw [loadEnc_save g g.characters he]

/-- C6 witness input: the same campaign with the concentration spell in
the dict form, as a load has already produced it. -/
def c6OkChar : Character :=
  { name := "cleric", char_id := "cl1",
    inventory := [{ name := "rope", quantity := 2, weight := 10 }],
    spells := [c6Spell],
    spell_slots := [(1, ⟨2, 3⟩)],
    concentration := some ⟨SpellVal.dict c6Spell, 10, 1⟩ }

/-- C6 witness input: the started encounter of the witness campaign. -/
def c6OkEnc : CombatEncounter where
  combatants := [{ character := c6OkChar }]
  round := 1
  turn_index := 0

/-- C6 witness input: the witness campaign. -/
def c6OkGame : Game :=
  { name := "camp", characters := [(("cl1"), c6OkChar)],
    encounters := [(("e1"), c6OkEnc)], party := [("cl1")] }

/-- C6 witness: the amended round trip on a concrete campaign with a
character (inventory, spells, spell slots, dict-form concentration) and
a started encounter. -/
theorem save_load_round_trip_witness :
    (∀ p ∈ c6OkGame.characters, p.2.concObjFree = true) ∧
    (∀ q ∈ c6OkGame.encounters, ∀ cb ∈ q.2.combatants, cb.character.concObjFree = true) ∧
    Game.load c6OkGame.save = some c6OkGame :=
  ⟨by decide, by decide, save_load_round_trip c6OkGame (by decide) (by decide)⟩

end DnD
